import Mathlib

/-!
Verification of the conversational-RAG agent core against its specification.

The Python sources are shallowly embedded: question strings become `String`,
dict-shaped chunk/session records become structures with `Option` fields,
Python `float` distances become `Option ℚ` (missing ↦ `⊤` in `WithTop ℚ`),
and the stable `list.sort` becomes an explicitly stable insertion sort.
-/

set_option maxHeartbeats 1000000

namespace StrUtil

/-- ASCII lowercase of one character (Python `str.lower`, ASCII range;
non-ASCII characters are left unchanged, which agrees with Python on all
inputs used by the agent's rule tables). -/
def lcChar (c : Char) : Char :=
  if c.toNat ≥ 65 ∧ c.toNat ≤ 90 then Char.ofNat (c.toNat + 32) else c

/-- Lowercase a character list. -/
def lcList (l : List Char) : List Char := l.map lcChar

/-- Whitespace test (Python `str.strip` / `\s` character class). -/
def isWs (c : Char) : Bool :=
  c == ' ' || c == '\t' || c == '\n' || c == '\r' || c == '\x0b' || c == '\x0c'

/-- Strip leading and trailing whitespace (Python `str.strip()`). -/
def trimList (l : List Char) : List Char :=
  ((l.dropWhile isWs).reverse.dropWhile isWs).reverse

/-- `startsW l p` : `p` is a prefix of `l` (Python `str.startswith`). -/
def startsW : List Char → List Char → Bool
  | _, [] => true
  | [], _ :: _ => false
  | c :: cs, p :: ps => c == p && startsW cs ps

/-- `hasSub hay needle` : `needle` occurs as a contiguous substring of `hay`
(Python `needle in hay`). -/
def hasSub : List Char → List Char → Bool
  | [], needle => needle.isEmpty
  | c :: t, needle => startsW (c :: t) needle || hasSub t needle

/-- Split on whitespace runs, dropping empty words (Python `str.split()`). -/
def splitWsAux : List Char → List Char → List (List Char)
  | [], cur => if cur.isEmpty then [] else [cur.reverse]
  | c :: t, cur =>
    if isWs c then
      (if cur.isEmpty then splitWsAux t [] else cur.reverse :: splitWsAux t [])
    else splitWsAux t (c :: cur)

def splitWs (l : List Char) : List (List Char) := splitWsAux l []

/-- Normalisation used throughout the agent: `text.strip().lower()`. -/
def normQ (s : String) : List Char := lcList (trimList s.data)

end StrUtil

open StrUtil

/-- A retrieved chunk record (`RetrievedChunk` of the data model; the Python
dicts produced by the external index).  `distance` is the similarity distance
(`None` for unknown); `source` and `page` are the grouping keys used by the
retrieval postprocessor (`None` modelling a missing dict key). -/
structure RetrievedChunk where
  id : String
  source : Option String
  page : Option String
  sectionName : Option String
  text : String
  distance : Option ℚ
  deriving DecidableEq, Repr

namespace Routing

/-- `QueryMode` enum of `routing.py`. -/
inductive QueryMode where
  | doc_only
  | json_only
  | hybrid
  deriving DecidableEq, Repr

/-- `_DEFINITION_PREFIXES` of `routing.py`. -/
def definitionPrefixes : List (List Char) :=
  ["what is ", "define ", "definition of ", "meaning of ", "what does ",
   "what is considered a ", "what is considered an ", "how is ", "how are "].map String.data

/-- `_DEFINITION_PATTERNS` of `routing.py`. -/
def definitionPatterns : List (List Char) :=
  [" mean", " defined", " definition"].map String.data

/-- `_DRAWING_INTENT_KEYWORDS` of `routing.py`. -/
def drawingIntentKeywords : List (List Char) :=
  ["property", "plot", "boundary", "front", "fronts", "distance", "angle",
   "coordinates", "door", "window", "wall", "layer", "json", "drawing",
   "comply", "allowed", "extension"].map String.data

/-- `_JSON_ONLY_PREFIXES` of `routing.py`. -/
def jsonOnlyPrefixes : List (List Char) :=
  ["how many ", "list ", "list the ", "what layers ", "which layers ",
   "count ", "number of ", "what is the width of ", "what is the height of ",
   "what is the area of ", "what is the name of "].map String.data

/-- `_JSON_ONLY_PATTERNS` of `routing.py`. -/
def jsonOnlyPatterns : List (List Char) :=
  [" layers ", " layer ", " objects ", " drawing ", " in the drawing",
   " in this drawing", " present", " are there"].map String.data

/-- The drawing-intent veto loop of `is_definition_only_question`. -/
def containsDrawingKeyword (normalized : List Char) : Bool :=
  drawingIntentKeywords.any (fun k => hasSub normalized k)

/-- The definition-style match (prefix loop and pattern loop) of
`is_definition_only_question`. -/
def matchesDefinitionStyle (normalized : List Char) : Bool :=
  definitionPrefixes.any (fun p => startsW normalized p) ||
  definitionPatterns.any (fun p => hasSub normalized p)

/-- `routing.is_definition_only_question`. -/
def is_definition_only_question (q : String) : Bool :=
  if q = "" then false
  else
    let n := normQ q
    if n = [] then false
    else if containsDrawingKeyword n then false
    else matchesDefinitionStyle n

/-- `routing.is_json_only_question`. -/
def is_json_only_question (q : String) : Bool :=
  if q = "" then false
  else
    let n := normQ q
    if n = [] then false
    else if is_definition_only_question q then false
    else
      jsonOnlyPrefixes.any (fun p => startsW n p) ||
      jsonOnlyPatterns.any (fun p => hasSub n p) ||
      (hasSub n "how many ".data && (hasSub n "layer".data || hasSub n "object".data)) ||
      hasSub n "what layer".data || hasSub n "which layer".data ||
      (hasSub n "what is the ".data &&
        ["width of ", "height of ", "area of ", "name of "].any (fun p => hasSub n p.data))

/-- `routing.get_query_mode`. -/
def get_query_mode (q : String) : QueryMode :=
  if q = "" then .hybrid
  else if is_definition_only_question q then .doc_only
  else if is_json_only_question q then .json_only
  else .hybrid

end Routing

/-- The retrieval settings consumed by `retrieve_node`
(`Settings.retrieval_top_k`, `Settings.retrieval_max_distance`). -/
structure Settings where
  retrieval_top_k : Nat
  retrieval_max_distance : Option ℚ
  deriving DecidableEq, Repr

namespace GraphNodes

/-- `nodes.retrieve_node`, with the external retriever
(`retrieval_lc.retrieve`) passed as a function argument.  Returns the
`retrieved_docs` update. -/
def retrieve_node (settings : Option Settings)
    (retr : String → Nat → Option ℚ → List RetrievedChunk)
    (question : String) (query_mode : Routing.QueryMode) : List RetrievedChunk :=
  match settings with
  | none => []
  | some s =>
    if query_mode = .json_only then []
    else retr question s.retrieval_top_k s.retrieval_max_distance

end GraphNodes

namespace Smalltalk

/-- `DOMAIN_KEYWORDS` of `smalltalk.py`. -/
def domainKeywords : List (List Char) :=
  ["property", "highway", "plot", "boundary", "elevation", "planning",
   "development", "wall", "window", "door", "json", "layer"].map String.data

/-- `SMALLTALK_MAX_WORDS` of `smalltalk.py`. -/
def smalltalkMaxWords : Nat := 4

/-- `SMALLTALK_PHRASES` of `smalltalk.py`. -/
def smalltalkPhrases : List (List Char) :=
  (["hi", "hello", "hey", "hey there", "hi there",
    "good morning", "good afternoon", "good evening",
    "morning", "afternoon", "evening", "good day",
    "thanks", "thank you", "thx", "thanks!", "thank you!",
    "how are you", "how are you doing",
    "how do you do", "greetings", "howdy"].map String.data) ++
  ["how".data ++ ['\''] ++ "s it going".data]

/-- `_strip_trailing_punctuation` of `smalltalk.py`. -/
def stripTrailingPunct (l : List Char) : List Char :=
  trimList ((l.reverse.dropWhile (fun c =>
    c == '.' || c == ',' || c == '!' || c == '?' || c == ';' || c == ':')).reverse)

/-- `smalltalk.is_smalltalk`. -/
def is_smalltalk (m : String) : Bool :=
  if m = "" then false
  else
    let n := normQ m
    if n = [] then false
    else if (splitWs n).length > smalltalkMaxWords then false
    else if domainKeywords.any (fun k => hasSub n k) then false
    else smalltalkPhrases.contains (stripTrailingPunct n)

end Smalltalk

namespace GeometryGuard

/-- `_GENERAL_RULE_PHRASES` of `geometry_guard.py`. -/
def generalRulePhrases : List (List Char) :=
  ["what is meant by", "what is ", "would ", "normally be permitted",
   "does the presence of", "restrict ", "according to the regulations",
   "according to the regulation", "generally"].map String.data

/-- `_THIS_DRAWING_PHRASES` of `geometry_guard.py`. -/
def thisDrawingPhrases : List (List Char) :=
  ["does this property", "is this plot", "in the current drawing",
   "given this drawing", "this drawing", "this property", "this plot"].map String.data

/-- `_SPATIAL_KEYWORDS` of `geometry_guard.py`. -/
def spatialKeywords : List (List Char) :=
  ["front", "fronts", "fronting", "adjacent", "adjacency", "distance", "far",
   "near", "proximity", "angle", "degrees", "coordinates", "geometry",
   "intersects", "intersection", "touch", "overlap", "align", "parallel",
   "perpendicular", "orientation", "position", "located", "relative",
   "elevation"].map String.data

/-- `geometry_guard.should_trigger_geometry_guard`. -/
def should_trigger_geometry_guard (q : String) : Bool :=
  if q = "" then false
  else
    let n := normQ q
    if n = [] then false
    else if generalRulePhrases.any (fun p => hasSub n p) then false
    else if ¬ thisDrawingPhrases.any (fun p => hasSub n p) then false
    else spatialKeywords.any (fun k => hasSub n k)

/-- `geometry_guard.is_spatial_question`. -/
def is_spatial_question (q : String) : Bool :=
  if q = "" then false
  else
    let n := normQ q
    if n = [] then false
    else spatialKeywords.any (fun k => hasSub n k)

/-- `geometry_guard.required_layers_for_question`.  The Python function builds a
`set`; we model it as the insertion-ordered list of canonical layer names with
duplicates removed (set content is what the claims are about, and the order in
which Python iterates the set is surfaced explicitly wherever it matters). -/
def required_layers_for_question (q : String) : List String :=
  let n := normQ q
  let frontingCond := ["front", "fronts", "fronting"].any (fun p => hasSub n p.data)
  let impliedCond := ["highway", "boundary", "plot", "adjacent", "distance",
    "intersect", "touch", "overlap", "align", "position", "orientation",
    "coordinates", "geometry"].any (fun k => hasSub n k.data)
  let base : List String :=
    if frontingCond || impliedCond then ["Highway", "Plot Boundary"] else []
  let extra : List String :=
    (if hasSub n "elevation".data then ["Walls", "Doors"] else []) ++
    (if hasSub n "wall".data then ["Walls"] else []) ++
    (if hasSub n "walls".data then ["Walls"] else []) ++
    (if hasSub n "door".data then ["Doors"] else []) ++
    (if hasSub n "doors".data then ["Doors"] else [])
  (base ++ extra).dedup

/-- One coordinate entry of a geometry's `coordinates` array: either a scalar
or a nested array (e.g. `[x, y]`). -/
inductive CoordVal where
  | scalar (q : ℚ)
  | nested (l : List ℚ)
  deriving DecidableEq, Repr

/-- The `geometry` dict of a session object. -/
structure Geometry where
  coordinates : Option (List CoordVal)
  deriving DecidableEq, Repr

/-- A session object (`SessionObject` of the data model).  `layer` and
`layerCap` model the `"layer"` and `"Layer"` dict keys. -/
structure SessionObject where
  layer : Option String
  layerCap : Option String
  geometry : Option Geometry
  deriving DecidableEq, Repr

/-- `geometry_guard.has_geometry`. -/
def has_geometry (o : SessionObject) : Bool :=
  match o.geometry with
  | none => false
  | some g =>
    match g.coordinates with
    | none => false
    | some [] => false
    | some (first :: _) =>
      match first with
      | .nested l => !l.isEmpty
      | .scalar _ => true

/-- `geometry_guard._layer_name` (also `followups._layer_name`): the `"layer"`
key, falling back to `"Layer"` when falsy, `None` when blank, stripped. -/
def layerName (o : SessionObject) : Option String :=
  let l := match o.layer with
    | some s => if s = "" then o.layerCap else some s
    | none => o.layerCap
  match l with
  | none => none
  | some s => if (trimList s.data).isEmpty then none else some (String.mk (trimList s.data))

/-- `geometry_guard._layer_matches` applied to a singleton required set (the
only way it is called): case-insensitive equality, or substring containment in
either direction. -/
def layerMatches (layer r : String) : Bool :=
  let ll := lcList layer.data
  let rl := lcList r.data
  (ll == rl) || hasSub ll rl || hasSub rl ll

/-- Append an object to the group of `req` (the `defaultdict` bucket), keeping
dict insertion order. -/
def addObjToGroups (groups : List (String × List SessionObject)) (req : String)
    (o : SessionObject) : List (String × List SessionObject) :=
  match groups with
  | [] => [(req, [o])]
  | (k, g) :: rest =>
    if k = req then (k, g ++ [o]) :: rest else (k, g) :: addObjToGroups rest req o

/-- The required layer an object is assigned to: the first element of
`required` (in set-iteration order) matched by the object's layer name, if
any. -/
def assignReq (required : List String) (o : SessionObject) : Option String :=
  match layerName o with
  | none => none
  | some layer => required.find? (fun r => layerMatches layer r)

/-- The grouping loop of `missing_geometry_layers`: each object goes to the
bucket of the first required layer it matches (`break` after the first match);
`required` is the iteration order of the Python `required_layers` set. -/
def groupByRequired (objs : List SessionObject) (required : List String) :
    List (String × List SessionObject) :=
  objs.foldl (fun gs o =>
    match assignReq required o with
    | none => gs
    | some req => addObjToGroups gs req o) []

/-- Bucket of key `k` in a grouping association list (first entry wins, as in
a Python dict whose keys are unique). -/
def groupsLookup : List (String × List SessionObject) → String → List SessionObject
  | [], _ => []
  | e :: rest, k => if e.1 = k then e.2 else groupsLookup rest k

/-- `carriesB o L` : the object's layer name matches required layer `L`
(case/substring matching of `_layer_matches`); the claims' notion of an object
"carrying" a required layer. -/
def carriesB (o : SessionObject) (L : String) : Bool :=
  match layerName o with
  | none => false
  | some l => layerMatches l L

/-- `geometry_guard.missing_geometry_layers`.  `required` is the Python set's
iteration order. -/
def missing_geometry_layers (objs : List SessionObject) (required : List String) :
    List String :=
  if required = [] then []
  else if objs = [] then []
  else
    ((groupByRequired objs required).filter (fun e =>
      !e.2.isEmpty && e.2.all (fun o => !has_geometry o))).map Prod.fst

end GeometryGuard

namespace Followups

open GeometryGuard

/-- A token sequence that must occur separated by whitespace runs (one
`\s+`-joined regex alternative of `followups.py`).  The `what'?s missing`
pattern and the Turkish character classes are expanded into their literal
alternatives. -/
def needsInputTokenSeqs : List (List (List Char)) :=
  [["what".data, "it".data, "needs".data],
   ["what".data, "do".data, "you".data, "need".data],
   ["what".data, "is".data, "needed".data],
   ["what".data ++ ['\'', 's'], "missing".data],
   ["whats".data, "missing".data],
   ["what".data, "do".data, "i".data, "need".data],
   ["ne".data, "lazım".data],
   ["ne".data, "lazim".data],
   ["ne".data, "gerekiyor".data],
   ["ne".data, "eksik".data],
   ["neye".data, "ihtiyaç".data],
   ["neye".data, "ihtiyac".data]]

/-- Match a `\s+`-separated token sequence at the start of `cs`. -/
def matchSeqFrom (cs : List Char) : List (List Char) → Bool
  | [] => true
  | [t] => startsW cs t
  | t :: rest =>
    startsW cs t &&
      (let cs2 := cs.drop t.length
       match cs2 with
       | [] => false
       | c :: _ => isWs c && matchSeqFrom (cs2.dropWhile isWs) rest)

/-- `re.search` for a `\s+`-separated token sequence: try every start
position. -/
def searchSeq : List Char → List (List Char) → Bool
  | [], toks => matchSeqFrom [] toks
  | c :: t, toks => matchSeqFrom (c :: t) toks || searchSeq t toks

/-- `followups.is_needs_input_followup` (the compiled `_NEEDS_INPUT_PATTERNS`
searched case-insensitively over the stripped question). -/
def is_needs_input_followup (q : String) : Bool :=
  if q = "" then false
  else
    let t := trimList q.data
    if t = [] then false
    else needsInputTokenSeqs.any (fun toks => searchSeq (lcList t) toks)

/-- Ascending stable sort of strings (Python `sorted`). -/
def sortStrings (l : List String) : List String :=
  List.insertionSort (fun a b => a ≤ b) l

/-- `followups.get_missing_geometry_layers`: required set is the layers present
union `{Highway, Plot Boundary}` (modelled in insertion order), and the result
is sorted. -/
def get_missing_geometry_layers (objs : List SessionObject) : List String :=
  if objs = [] then []
  else
    let present := (objs.filterMap layerName).dedup
    let required := (present ++ ["Highway", "Plot Boundary"]).dedup
    sortStrings (missing_geometry_layers objs required)

end Followups

namespace GraphNodes

open GeometryGuard

/-- `GuardResult` (the `guard_result` dict written by the guard nodes). -/
inductive GuardResult where
  | smalltalk
  | missing_geometry (missing_layers : List String)
  | needs_input (missing_layers : List String)
  deriving DecidableEq, Repr

/-- `nodes.smalltalk_node`: the `guard_result` update.  `none` models both
`{"guard_result": None}` and an untouched key. -/
def smalltalk_node (question : String) : Option GuardResult :=
  if Smalltalk.is_smalltalk question then some .smalltalk else none

/-- `nodes.geometry_guard_node`: the `guard_result` update. -/
def geometry_guard_node (question : String) (session_objects : List SessionObject) :
    Option GuardResult :=
  if ¬ should_trigger_geometry_guard question then none
  else
    let required := required_layers_for_question question
    let missing := missing_geometry_layers session_objects required
    if missing ≠ [] then some (.missing_geometry (Followups.sortStrings missing))
    else none

/-- `nodes.followup_node`: the `guard_result` update (`none` models the `{}`
returns, which leave any previously written `guard_result` in place). -/
def followup_node (question : String) (session_objects : List SessionObject) :
    Option GuardResult :=
  if ¬ Followups.is_needs_input_followup question then none
  else
    let ml := Followups.get_missing_geometry_layers session_objects
    if ml ≠ [] then some (.needs_input ml) else none

/-- The guard portion of the compiled single-shot graph
(`graph_builder.build_answer_graph`): `validate → smalltalk`; if small talk
fired, jump to finalize; otherwise `geometry_guard → followup` run
unconditionally (the edge `geometry_guard → followup` is not conditional), and
a `guard_result` written by `followup` overwrites one written by
`geometry_guard` in the merged state. -/
def runGuardsGraph (question : String) (session_objects : List SessionObject) :
    Option GuardResult :=
  match smalltalk_node question with
  | some r => some r
  | none =>
    let g2 := geometry_guard_node question session_objects
    match followup_node question session_objects with
    | some r => some r
    | none => g2

/-- The guard portion of the streaming driver
(`graph_builder.run_graph_until_route`), which returns early as soon as any
guard has written a `guard_result`. -/
def runGuardsStream (question : String) (session_objects : List SessionObject) :
    Option GuardResult :=
  match smalltalk_node question with
  | some r => some r
  | none =>
    match geometry_guard_node question session_objects with
    | some r => some r
    | none => followup_node question session_objects

end GraphNodes

namespace DocOnlyGuard

/-- `_QUOTE_CHARS` of `guards/doc_only_guard.py` (straight and smart quotes). -/
def quoteChars : List Char := ['\'', '"', '\u2018', '\u2019', '\u201c', '\u201d']

/-- Opening quotes accepted before the quoted term in pattern 1. -/
def openQuoteChars : List Char := ['"', '\'', '\u201c', '\u2018']

/-- Characters ending the quoted capture of pattern 1 (the regex class
`[^"'\u201d\u2019?]` excludes exactly these). -/
def p1StopChars : List Char := ['"', '\'', '\u201d', '\u2019', '?']

/-- Closing quotes accepted after the quoted term in pattern 1. -/
def closeQuoteChars : List Char := ['"', '\'', '\u201d', '\u2019']

/-- `-` becomes a space (so "principal elevation" matches
"principal-elevation"). -/
def hyphenToSpace (c : Char) : Char := if c == '-' then ' ' else c

/-- The quote-stripping loop of `_normalize_term_for_match`
(`while t and t[0] in _QUOTE_CHARS: t = t[1:].strip()`), fuelled by the input
length (each iteration strictly shortens the list, so the fuel never runs
out). -/
def dropLeadQuotes : Nat → List Char → List Char
  | 0, l => l
  | fuel + 1, l =>
    match l with
    | [] => []
    | c :: t => if quoteChars.contains c then dropLeadQuotes fuel (trimList t) else c :: t

/-- `_normalize_term_for_match` of `guards/doc_only_guard.py`: strip, lower,
strip wrapping quotes from both ends, hyphens to spaces. -/
def normalizeTermForMatch (term : List Char) : List Char :=
  let t0 := lcList (trimList term)
  let t1 := dropLeadQuotes t0.length t0
  let t2 := (dropLeadQuotes t1.length t1.reverse).reverse
  t2.map hyphenToSpace

/-- Match a sequence of literal lowercase tokens each followed by `\s+`
(the `tok1\s+tok2\s+...\s+` backbone of the guard's regexes); returns the
remaining input after the final whitespace run. -/
def matchToksWs (cs : List Char) : List (List Char) → Option (List Char)
  | [] => some cs
  | t :: rest =>
    if startsW cs t then
      let cs2 := cs.drop t.length
      match cs2 with
      | [] => none
      | c :: _ => if isWs c then matchToksWs (cs2.dropWhile isWs) rest else none
    else none

/-- First alternative (regex `(?:x|y|...)`) that matches as a token followed
by `\s+`. -/
def matchAltToksWs (cs : List Char) : List (List Char) → Option (List Char)
  | [] => none
  | a :: rest =>
    match matchToksWs cs [a] with
    | some cs2 => some cs2
    | none => matchAltToksWs cs rest

/-- `re.search`: try a position-anchored matcher at every start position and
keep the leftmost hit. -/
def searchO (f : List Char → Option (List Char)) : List Char → Option (List Char)
  | [] => f []
  | c :: t =>
    match f (c :: t) with
    | some r => some r
    | none => searchO f t

/-- Pattern 1 of `extract_definition_term`:
`what\s+is\s+meant\s+by\s+["'\u201c\u2018]([^"'\u201d\u2019?]+)["'\u201d\u2019]?\s*\??\s*$`. -/
def p1At (cs : List Char) : Option (List Char) :=
  match matchToksWs cs ["what".data, "is".data, "meant".data, "by".data] with
  | none => none
  | some cs1 =>
    match cs1 with
    | [] => none
    | qc :: cs2 =>
      if openQuoteChars.contains qc then
        let cap := cs2.takeWhile (fun c => !p1StopChars.contains c)
        let rest := cs2.dropWhile (fun c => !p1StopChars.contains c)
        if cap = [] then none
        else
          let rest2 := match rest with
            | c :: t => if closeQuoteChars.contains c then t else rest
            | [] => []
          let rest3 := rest2.dropWhile isWs
          let rest4 := match rest3 with
            | '?' :: t => t
            | _ => rest3
          if rest4.dropWhile isWs = [] then some cap else none
      else none

/-- The tail test of pattern 2's non-greedy capture: `(?:\s*[?,]|\s*$)`. -/
def p2Tail (r : List Char) : Bool :=
  match r.dropWhile isWs with
  | [] => true
  | c :: _ => c == '?' || c == ','

/-- The non-greedy capture `([^?,]+?)` of pattern 2: the shortest nonempty
prefix free of `?`/`,` whose remainder satisfies `p2Tail`. -/
def p2cap (acc : List Char) : List Char → Option (List Char)
  | [] => none
  | c :: rest =>
    if c == '?' || c == ',' then none
    else if p2Tail rest then some (acc ++ [c])
    else p2cap (acc ++ [c]) rest

/-- Pattern 2: `what\s+is\s+meant\s+by\s+([^?,]+?)(?:\s*[?,]|\s*$)`. -/
def p2At (cs : List Char) : Option (List Char) :=
  match matchToksWs cs ["what".data, "is".data, "meant".data, "by".data] with
  | none => none
  | some cs1 => p2cap [] cs1

/-- Strip trailing whitespace. -/
def stripRightWs (l : List Char) : List Char := (l.reverse.dropWhile isWs).reverse

/-- The `([^?]+?)\s*\??\s*$` tail shared by patterns 3–5: because the tail is
anchored at the end, the non-greedy capture is the input with trailing
whitespace, one optional `?` and more trailing whitespace removed, provided
that remainder is nonempty and free of `?`. -/
def defTailCapture (r : List Char) : Option (List Char) :=
  let u := stripRightWs r
  let u2 := match u.reverse with
    | '?' :: t => t.reverse
    | _ => u
  let v := stripRightWs u2
  if v = [] then none
  else if v.contains '?' then none
  else some v

/-- Pattern 3:
`what\s+is\s+the\s+(?:definition|meaning)\s+of\s+(?:a|an|the)\s+([^?]+?)\s*\??\s*$`. -/
def p3At (cs : List Char) : Option (List Char) :=
  (matchToksWs cs ["what".data, "is".data, "the".data]).bind fun cs1 =>
  (matchAltToksWs cs1 ["definition".data, "meaning".data]).bind fun cs2 =>
  (matchToksWs cs2 ["of".data]).bind fun cs3 =>
  (matchAltToksWs cs3 ["a".data, "an".data, "the".data]).bind fun cs4 =>
  defTailCapture cs4

/-- Pattern 4: as pattern 3 but without the article group. -/
def p4At (cs : List Char) : Option (List Char) :=
  (matchToksWs cs ["what".data, "is".data, "the".data]).bind fun cs1 =>
  (matchAltToksWs cs1 ["definition".data, "meaning".data]).bind fun cs2 =>
  (matchToksWs cs2 ["of".data]).bind fun cs3 =>
  defTailCapture cs3

/-- Pattern 5: `what\s+is\s+(?:a|an|the)\s+([^?]+?)\s*\??\s*$`. -/
def p5At (cs : List Char) : Option (List Char) :=
  (matchToksWs cs ["what".data, "is".data]).bind fun cs1 =>
  (matchAltToksWs cs1 ["a".data, "an".data, "the".data]).bind fun cs2 =>
  defTailCapture cs2

/-- The `if term and len(term) < 80: return _normalize_term_for_match(term)`
check applied to a raw capture; `none` falls through to the next pattern. -/
def checkTerm : Option (List Char) → Option (List Char)
  | none => none
  | some cap =>
    let term := trimList cap
    if term ≠ [] ∧ term.length < 80 then some (normalizeTermForMatch term) else none

/-- The prefix loop of `extract_definition_term`
(`"define "`, `"definition of "`, `"meaning of "`): term is the first
`re.split(r"\s*[?,]\s*", rest)` segment, stripped. -/
def p6Go (n : List Char) : List (List Char) → Option (List Char)
  | [] => none
  | p :: rest =>
    if startsW n p then
      let r := trimList (n.drop p.length)
      if r = [] then p6Go n rest
      else
        let term := trimList (r.takeWhile (fun c => !(c == '?' || c == ',')))
        if term ≠ [] ∧ term.length < 80 then some (normalizeTermForMatch term)
        else p6Go n rest
    else p6Go n rest

/-- `guards/doc_only_guard.extract_definition_term`: the pattern cascade over
the stripped, lowercased question; returns the normalized term (as a character
list) or `none`. -/
def extract_definition_term (q : String) : Option (List Char) :=
  if q = "" then none
  else
    let n := normQ q
    if n = [] then none
    else
      match checkTerm (searchO p1At n) with
      | some t => some t
      | none =>
        match checkTerm (searchO p2At n) with
        | some t => some t
        | none =>
          match checkTerm (searchO p3At n) with
          | some t => some t
          | none =>
            match checkTerm (searchO p4At n) with
            | some t => some t
            | none =>
              match checkTerm (searchO p5At n) with
              | some t => some t
              | none =>
                p6Go n ["define ".data, "definition of ".data, "meaning of ".data]

/-- `guards/doc_only_guard.term_appears_in_chunks`: the normalized term occurs
as a substring of at least one chunk's normalized text (lowercased, hyphens as
spaces). -/
def term_appears_in_chunks (term : List Char) (chunks : List RetrievedChunk) : Bool :=
  if term = [] ∨ chunks = [] then false
  else
    let needle := normalizeTermForMatch term
    if needle = [] then false
    else chunks.any (fun c =>
      hasSub ((lcList (trimList c.text.data)).map hyphenToSpace) needle)

/-- `guards/doc_only_guard.should_use_retrieved_for_doc_only`. -/
def should_use_retrieved_for_doc_only (q : String)
    (retrieved_chunks : List RetrievedChunk) : Bool :=
  if retrieved_chunks = [] then false
  else
    match extract_definition_term q with
    | none => true
    | some term => term_appears_in_chunks term retrieved_chunks

end DocOnlyGuard

namespace Chains

/-- `rag/chains.DOC_ONLY_EMPTY_MESSAGE` (also the literal string in
`nodes.llm_node`). -/
def DOC_ONLY_EMPTY_MESSAGE : String :=
  "No explicit definition was found in the retrieved documents."

end Chains

namespace GraphNodes

/-- The `doc_only` branch of `nodes.llm_node` (the single-shot graph's
generation step): the fixed message is substituted only when the retrieved
list is empty, otherwise the external chain (`invoke_doc_only`, passed here as
`gen`) is called. -/
def llm_node_doc_only (gen : String → List RetrievedChunk → String)
    (question : String) (retrieved_docs : List RetrievedChunk) : String :=
  if retrieved_docs = [] then Chains.DOC_ONLY_EMPTY_MESSAGE
  else gen question retrieved_docs

end GraphNodes

namespace Orchestrator

/-- The `doc_only` branch of `rag/orchestrator.stream_answer_ndjson`: the
fixed message is substituted when the retrieved list is empty or
`should_use_retrieved_for_doc_only` rejects; otherwise the streamed increments
of the same chain are concatenated (modelled as `gen`, the same generation
function as the single-shot path, since both invoke the same LCEL chain). -/
def stream_doc_only (gen : String → List RetrievedChunk → String)
    (question : String) (retrieved_docs : List RetrievedChunk) : String :=
  if retrieved_docs = [] ∨
      DocOnlyGuard.should_use_retrieved_for_doc_only question retrieved_docs = false then
    Chains.DOC_ONLY_EMPTY_MESSAGE
  else gen question retrieved_docs

end Orchestrator

namespace RetrievalPostprocess

/-- `MAX_CHUNKS_PER_PAGE` of `rag/retrieval_postprocess.py`. -/
def MAX_CHUNKS_PER_PAGE : Nat := 2

/-- `_chunk_distance`: the chunk's distance, with a missing value treated as
`float("inf")` (here `⊤`).  Python floats are modelled as rationals; the
`float(d)` conversion cannot fail on the typed field. -/
def chunkDistance (c : RetrievedChunk) : WithTop ℚ :=
  match c.distance with
  | none => ⊤
  | some d => (d : WithTop ℚ)

/-- `_source_page_key`: `(chunk.get("source") or "unknown", chunk.get("page"))`
(the `or` also replaces an empty source string). -/
def sourcePageKey (c : RetrievedChunk) : String × Option String :=
  (match c.source with
   | none => "unknown"
   | some s => if s = "" then "unknown" else s,
   c.page)

/-- Ascending-by-distance comparison used for all sorting. -/
def distLE (a b : RetrievedChunk) : Prop := chunkDistance a ≤ chunkDistance b

/-- Strict version of `distLE`. -/
def distLT (a b : RetrievedChunk) : Prop := chunkDistance a < chunkDistance b

instance : DecidableRel distLE := fun a b =>
  inferInstanceAs (Decidable (chunkDistance a ≤ chunkDistance b))

instance : DecidableRel distLT := fun a b =>
  inferInstanceAs (Decidable (chunkDistance a < chunkDistance b))

instance : IsTotal RetrievedChunk distLE := ⟨fun a b => le_total _ _⟩

instance : IsTrans RetrievedChunk distLE := ⟨fun _ _ _ => le_trans⟩

instance : IsTrans RetrievedChunk distLT := ⟨fun _ _ _ => lt_trans⟩

instance : IsAntisymm RetrievedChunk distLT :=
  ⟨fun _ _ h1 h2 => absurd h2 (lt_asymm h1)⟩

/-- Stable insertion: the new element goes after every element whose distance
is less than or equal to its own (how a stable sort places a newly appended
element). -/
def insAfterEq (x : RetrievedChunk) : List RetrievedChunk → List RetrievedChunk
  | [] => [x]
  | y :: ys =>
    if chunkDistance x < chunkDistance y then x :: y :: ys else y :: insAfterEq x ys

/-- Python's `lst.sort(key=_chunk_distance)`: timsort is stable, and every
stable ascending sort computes this left-to-right insertion sort. -/
def pySort (l : List RetrievedChunk) : List RetrievedChunk :=
  l.foldl (fun acc x => insAfterEq x acc) []

/-- `if len(lst) > max_per_page: lst.pop()` — drop the (sorted) bucket's last
element when over the cap. -/
def popIfLong (cap : Nat) (l : List RetrievedChunk) : List RetrievedChunk :=
  if cap < l.length then l.dropLast else l

/-- One bucket update of the grouping loop: append, stable sort, pop when over
the cap. -/
def bucketStep (cap : Nat) (lst : List RetrievedChunk) (c : RetrievedChunk) :
    List RetrievedChunk :=
  popIfLong cap (pySort (lst ++ [c]))

/-- Update of the `by_key` dict: the chunk joins the bucket of key `K`
(dict insertion order preserved). -/
def addToBucketsKey (cap : Nat) (K : String × Option String) :
    List ((String × Option String) × List RetrievedChunk) → RetrievedChunk →
      List ((String × Option String) × List RetrievedChunk)
  | [], c => [(K, bucketStep cap [] c)]
  | (k, g) :: rest, c =>
    if k = K then (k, bucketStep cap g c) :: rest
    else (k, g) :: addToBucketsKey cap K rest c

/-- Update of the `by_key` dict for one chunk: the chunk joins the bucket of
its `(source, page)` key. -/
def addToBuckets (cap : Nat)
    (gs : List ((String × Option String) × List RetrievedChunk))
    (c : RetrievedChunk) : List ((String × Option String) × List RetrievedChunk) :=
  addToBucketsKey cap (sourcePageKey c) gs c

/-- Bucket of key `k` in the `by_key` association list. -/
def bucketsLookup : List ((String × Option String) × List RetrievedChunk) →
    (String × Option String) → List RetrievedChunk
  | [], _ => []
  | e :: rest, k => if e.1 = k then e.2 else bucketsLookup rest k

/-- The optional threshold filter of `postprocess`: keep chunks whose distance
is at most `max_distance` (missing distances are `⊤` and always fail a finite
threshold). -/
def thresholded (chunks : List RetrievedChunk) (max_distance : Option ℚ) :
    List RetrievedChunk :=
  match max_distance with
  | none => chunks
  | some max_d =>
    chunks.filter (fun c => decide (chunkDistance c ≤ (max_d : WithTop ℚ)))

/-- `rag/retrieval_postprocess.postprocess`: optional distance-threshold
filter, per-`(source, page)` cap of best-by-distance chunks, then a stable
ascending sort by distance. -/
def postprocess (chunks : List RetrievedChunk) (max_distance : Option ℚ)
    (max_per_page : Nat) : List RetrievedChunk :=
  if chunks = [] then []
  else
    let cs := thresholded chunks max_distance
    let by_key := cs.foldl (addToBuckets max_per_page) []
    let deduped := (by_key.map Prod.snd).join
    pySort deduped

end RetrievalPostprocess

namespace DocumentRegistry

/-- `DocumentStatus` enum of `document_registry.py`. -/
inductive DocumentStatus where
  | NEW
  | UNCHANGED
  | UPDATED
  | DELETED
  deriving DecidableEq, Repr

/-- `DocumentRecord` dataclass of `document_registry.py`. -/
structure DocumentRecord where
  source_id : String
  content_hash : String
  chunk_ids : List String
  version : Nat
  last_ingested_at : String
  page_count : Nat
  chunk_count : Nat
  deriving DecidableEq, Repr

/-- `DocumentRegistry.records`: a Python dict `source_id -> record`, embedded
as an insertion-ordered association list. -/
abbrev Registry := List (String × DocumentRecord)

/-- Dict lookup `records.get(source_id)`. -/
def regLookup : Registry → String → Option DocumentRecord
  | [], _ => none
  | (k, r) :: rest, sid => if k = sid then some r else regLookup rest sid

/-- Dict assignment `records[source_id] = r` (update in place keeps the key's
position; a fresh key is appended, as in Python's insertion-ordered dict). -/
def regSet : Registry → String → DocumentRecord → Registry
  | [], sid, r => [(sid, r)]
  | (k, r1) :: rest, sid, r =>
    if k = sid then (k, r) :: rest else (k, r1) :: regSet rest sid r

/-- Dict deletion `del records[source_id]`. -/
def regDel : Registry → String → Registry
  | [], _ => []
  | (k, r1) :: rest, sid => if k = sid then rest else (k, r1) :: regDel rest sid

/-- `DocumentRegistry.get_status`. -/
def get_status (reg : Registry) (source_id content_hash : String) :
    DocumentStatus :=
  match regLookup reg source_id with
  | none => .NEW
  | some existing =>
    if existing.content_hash = content_hash then .UNCHANGED else .UPDATED

/-- `DocumentRegistry.register`.  `now` stands for
`datetime.now(timezone.utc).isoformat()`. -/
def register (reg : Registry) (source_id content_hash : String)
    (chunk_ids : List String) (page_count : Nat) (now : String) : Registry :=
  let version : Nat :=
    match regLookup reg source_id with
    | some existing => existing.version + 1
    | none => 1
  regSet reg source_id
    { source_id := source_id, content_hash := content_hash,
      chunk_ids := chunk_ids, version := version, last_ingested_at := now,
      page_count := page_count, chunk_count := chunk_ids.length }

/-- `DocumentRegistry.unregister`: returns the new registry and the removed
record's chunk ids (`[]` when the key is absent). -/
def unregister (reg : Registry) (source_id : String) :
    Registry × List String :=
  match regLookup reg source_id with
  | some r => (regDel reg source_id, r.chunk_ids)
  | none => (reg, [])

/-- `DocumentRegistry.get_chunk_ids`. -/
def get_chunk_ids (reg : Registry) (source_id : String) : List String :=
  match regLookup reg source_id with
  | some r => r.chunk_ids
  | none => []

/-- `DocumentRegistry.clear`. -/
def clear (_ : Registry) : Registry := []

def quoteS (s : String) : String := "\"" ++ s ++ "\""

def jsonStrList (l : List String) : String :=
  "[" ++ String.intercalate ", " (l.map quoteS) ++ "]"

/-- JSON text of `record.to_dict()` as `json.dump` writes it (fields in
dataclass order; the `indent=2` whitespace is simplified to single-line
separators, which does not affect any claim about the trace). -/
def recordJson (r : DocumentRecord) : String :=
  "\x7b" ++ String.intercalate ", "
    [quoteS "source_id" ++ ": " ++ quoteS r.source_id,
     quoteS "content_hash" ++ ": " ++ quoteS r.content_hash,
     quoteS "chunk_ids" ++ ": " ++ jsonStrList r.chunk_ids,
     quoteS "version" ++ ": " ++ toString r.version,
     quoteS "last_ingested_at" ++ ": " ++ quoteS r.last_ingested_at,
     quoteS "page_count" ++ ": " ++ toString r.page_count,
     quoteS "chunk_count" ++ ": " ++ toString r.chunk_count] ++ "\x7d"

/-- The full-registry JSON object `json.dump({k: v.to_dict() ...})` that
`_save` writes.  Always a braced object, so never the empty string. -/
def serializeRegistry (reg : Registry) : String :=
  "\x7b" ++ String.intercalate ", "
    (reg.map (fun kv => quoteS kv.1 ++ ": " ++ recordJson kv.2)) ++ "\x7d"

/-- `DocumentRegistry._save` as the trace of observable on-disk contents of
the registry file: `open(self.registry_path, "w")` first TRUNCATES the file
in place (state `""`), then `json.dump` writes the serialized registry.
There is no temporary file and no rename. -/
def saveTrace (oldDisk : String) (reg : Registry) : List String :=
  [oldDisk, "", serializeRegistry reg]

/-- Following the spec's words for comparison (write-then-replace): the new
content is written to a fresh file and atomically renamed over the old one,
so the registry file itself only ever shows the old or the new content. -/
def saveTraceSpecAtomic (oldDisk : String) (reg : Registry) : List String :=
  [oldDisk, serializeRegistry reg]

end DocumentRegistry

namespace Ingestion

/-- One element of `extract_text_from_pdf`'s result (`ingestion.py`). -/
structure Page where
  page_num : Nat
  text : String
  source : String
  deriving DecidableEq, Repr

/-- `section_patterns` of `PDFIngestionService.detect_section`. -/
def section_patterns : List String :=
  ["Class A", "Class B", "Class C", "Class D", "Class E",
   "Class F", "Class G", "Class H",
   "General Issues", "Introduction", "Interpretation",
   "Conditions", "Development is not permitted"]

/-- ASCII uppercase of one character (Python `str.upper`, ASCII range). -/
def ucChar (c : Char) : Char :=
  if c.toNat ≥ 97 ∧ c.toNat ≤ 122 then Char.ofNat (c.toNat - 32) else c

def ucList (l : List Char) : List Char := l.map ucChar

/-- `PDFIngestionService.detect_section`: scan `text[:200].upper()` for the
first matching pattern and return that pattern's canonical spelling. -/
def detect_section (text : String) : Option String :=
  let first_lines := ucList (text.data.take 200)
  section_patterns.find? (fun p => hasSub first_lines (ucList p.data))

/-- Python format `f"{n:0wd}"`: decimal, zero-padded to width `w`. -/
def padZeros (w : Nat) (n : Nat) : String :=
  let s := toString n
  String.mk (List.replicate (w - s.length) '0') ++ s

/-- Python `str.replace(pat, repl)` on character lists (all non-overlapping
occurrences, left to right); fuelled by the input length. -/
def replaceAllAux (pat repl : List Char) : Nat → List Char → List Char
  | _, [] => []
  | 0, l => l
  | fuel + 1, c :: rest =>
    if pat ≠ [] ∧ startsW (c :: rest) pat then
      repl ++ replaceAllAux pat repl fuel ((c :: rest).drop pat.length)
    else c :: replaceAllAux pat repl fuel rest

def replaceAll (pat repl : List Char) (l : List Char) : List Char :=
  replaceAllAux pat repl l.length l

/-- The chunk id of `chunk_pages`:
`f"{source.replace('.pdf', '')}_{page_num:03d}_{chunk_counter:04d}"`.
Note it depends only on the source NAME, the page number and the running
counter - not on the chunk's text. -/
def mkChunkId (source : String) (page_num counter : Nat) : String :=
  String.mk (replaceAll ".pdf".data [] source.data) ++ "_" ++
    padZeros 3 page_num ++ "_" ++ padZeros 4 counter

/-- One yielded chunk dict of `chunk_pages` (metadata flattened). -/
structure Chunk where
  id : String
  text : String
  source : String
  page : String
  sectionName : Option String
  chunk_index : Nat
  deriving DecidableEq, Repr

/-- The inner `for chunk_text in chunks` loop of `chunk_pages`: `counter` is
the value of `chunk_counter` before the loop. -/
def emitChunks (source : String) (page_num : Nat) :
    Nat → List String → List Chunk
  | _, [] => []
  | counter, t :: ts =>
    { id := mkChunkId source page_num (counter + 1), text := t,
      source := source, page := toString page_num,
      sectionName := detect_section t, chunk_index := counter + 1 } ::
      emitChunks source page_num (counter + 1) ts

/-- `PDFIngestionService.chunk_pages`, with the external
`RecursiveCharacterTextSplitter.split_text` passed in as `split`.
`chunk_counter` starts at 0 and runs across pages. -/
def chunk_pages_from (split : String → List String) :
    Nat → List Page → List Chunk
  | _, [] => []
  | counter, p :: rest =>
    let texts := split p.text
    emitChunks p.source p.page_num counter texts ++
      chunk_pages_from split (counter + texts.length) rest

def chunk_pages (split : String → List String) (pages : List Page) :
    List Chunk :=
  chunk_pages_from split 0 pages

/-- The id sequence determined by a `(source, page_num, chunks-on-page)`
skeleton alone: used to state that chunk ids are text-independent. -/
def idsRange (source : String) (page_num : Nat) : Nat → Nat → List String
  | _, 0 => []
  | counter, Nat.succ k =>
    mkChunkId source page_num (counter + 1) :: idsRange source page_num (counter + 1) k

def idsFrom : Nat → List (String × Nat × Nat) → List String
  | _, [] => []
  | counter, (src, pn, n) :: rest => idsRange src pn counter n ++ idsFrom (counter + n) rest

end Ingestion

namespace SyncService

/-- A PDF file as `_process_document` observes it: its name, the SHA256 of
its bytes (`compute_hash`), and the pages `extract_text_from_pdf` yields. -/
structure PdfFile where
  name : String
  content_hash : String
  pages : List Ingestion.Page
  deriving DecidableEq, Repr

/-- An external-index operation issued by the sync service, in program
order.  `add_documents` receives full chunk dicts; only the entry ids
matter for the claims, so the event records them. -/
inductive SyncEvent where
  | deleteIds (ids : List String)
  | addDocs (ids : List String)
  deriving DecidableEq, Repr

inductive ProcessOutcome where
  | unchanged
  | noChunks
  | ingestedNew
  | ingestedUpdated
  deriving DecidableEq, Repr

structure ProcResult where
  reg : DocumentRegistry.Registry
  events : List SyncEvent
  outcome : ProcessOutcome
  deriving Repr

/-- `DocumentSyncService._process_document` (one per-document sync step).
`split` is the external text splitter, `now` the ingestion timestamp. -/
def process_document (split : String → List String) (now : String)
    (reg : DocumentRegistry.Registry) (pdf : PdfFile) : ProcResult :=
  let source_id := pdf.name
  let content_hash := pdf.content_hash
  let status := DocumentRegistry.get_status reg source_id content_hash
  if status = DocumentRegistry.DocumentStatus.UNCHANGED then
    ⟨reg, [], .unchanged⟩
  else
    let evs1 : List SyncEvent :=
      if status = DocumentRegistry.DocumentStatus.UPDATED then
        let old_chunk_ids := DocumentRegistry.get_chunk_ids reg source_id
        if old_chunk_ids ≠ [] then [.deleteIds old_chunk_ids] else []
      else []
    let chunks := Ingestion.chunk_pages split pdf.pages
    if chunks = [] then ⟨reg, evs1, .noChunks⟩
    else
      let chunk_ids := chunks.map Ingestion.Chunk.id
      let evs2 := evs1 ++ [.addDocs chunk_ids]
      let reg2 := DocumentRegistry.register reg source_id content_hash
        chunk_ids pdf.pages.length now
      if status = DocumentRegistry.DocumentStatus.NEW then
        ⟨reg2, evs2, .ingestedNew⟩
      else ⟨reg2, evs2, .ingestedUpdated⟩

/-- The registry after `sync()` with the default `delete_missing=False`:
`_process_document` folded over the PDF files in directory order. -/
def syncRun (split : String → List String) (now : String)
    (reg : DocumentRegistry.Registry) (files : List PdfFile) :
    DocumentRegistry.Registry :=
  files.foldl (fun r f => (process_document split now r f).reg) reg

/-- `DocumentSyncService.force_reingest(source_id)` for a specific document:
unregister it first, then process the matching files. -/
def force_reingest_one (split : String → List String) (now : String)
    (reg : DocumentRegistry.Registry) (source_id : String)
    (files : List PdfFile) : DocumentRegistry.Registry :=
  let reg1 := (DocumentRegistry.unregister reg source_id).1
  (files.filter (fun f => f.name = source_id)).foldl
    (fun r f => (process_document split now r f).reg) reg1

/-- The version recorded for `sid`, when registered. -/
def versionOf (reg : DocumentRegistry.Registry) (sid : String) : Option Nat :=
  (DocumentRegistry.regLookup reg sid).map DocumentRegistry.DocumentRecord.version

end SyncService

/-! ## Theorems -/

lemma is_definition_only_empty : Routing.is_definition_only_question "" = false := rfl

lemma is_json_only_empty : Routing.is_json_only_question "" = false := rfl

lemma is_definition_only_iff (q : String) :
    Routing.is_definition_only_question q = true ↔
      q ≠ "" ∧ normQ q ≠ [] ∧ Routing.containsDrawingKeyword (normQ q) = false ∧
        Routing.matchesDefinitionStyle (normQ q) = true := by
  unfold Routing.is_definition_only_question
  split_ifs with h1 h2 h3 <;> simp_all

lemma is_json_only_not_def (q : String) :
    Routing.is_json_only_question q = true → Routing.is_definition_only_question q = false := by
  unfold Routing.is_json_only_question
  split_ifs with h1 h2 h3 <;> simp_all

/-- **C8.** The router classifies a question `doc_only` exactly when it matches a
definition-style pattern and contains no drawing-intent keyword (a drawing-intent
keyword always vetoes `doc_only`); `json_only` is considered only for questions
that are not `doc_only`; every other question is `hybrid`; and in `json_only`
mode the retrieve step performs no retrieval and produces an empty result
(for every retriever function). -/
theorem c8_query_router_modes :
    (∀ q : String, Routing.get_query_mode q = .doc_only ↔
        (normQ q ≠ [] ∧ Routing.containsDrawingKeyword (normQ q) = false ∧
         Routing.matchesDefinitionStyle (normQ q) = true)) ∧
    (∀ q : String, Routing.containsDrawingKeyword (normQ q) = true →
        Routing.get_query_mode q ≠ .doc_only) ∧
    (∀ q : String, Routing.get_query_mode q = .json_only →
        Routing.is_definition_only_question q = false) ∧
    (∀ q : String, Routing.get_query_mode q = .json_only ↔
        Routing.is_json_only_question q = true) ∧
    (∀ q : String, Routing.get_query_mode q ≠ .doc_only →
        Routing.get_query_mode q ≠ .json_only → Routing.get_query_mode q = .hybrid) ∧
    (∀ (retr : String → Nat → Option ℚ → List RetrievedChunk) (st : Option Settings)
        (q : String), GraphNodes.retrieve_node st retr q .json_only = []) := by
  have hmode : ∀ q : String, Routing.get_query_mode q = .doc_only ↔
      Routing.is_definition_only_question q = true := by
    intro q
    by_cases h1 : q = ""
    · subst h1
      simp [Routing.get_query_mode, is_definition_only_empty]
    · by_cases h2 : Routing.is_definition_only_question q = true
      · simp [Routing.get_query_mode, h1, h2]
      · by_cases h3 : Routing.is_json_only_question q = true <;>
          simp [Routing.get_query_mode, h1, h2, h3] <;> simp_all
  have hjson : ∀ q : String, Routing.get_query_mode q = .json_only ↔
      Routing.is_json_only_question q = true := by
    intro q
    by_cases h1 : q = ""
    · subst h1
      simp [Routing.get_query_mode, is_json_only_empty]
    · by_cases h2 : Routing.is_definition_only_question q = true
      · have : Routing.is_json_only_question q = false := by
          by_contra h
          have hj : Routing.is_json_only_question q = true := by
            revert h; cases Routing.is_json_only_question q <;> simp
          have := is_json_only_not_def q hj
          simp_all
        simp [Routing.get_query_mode, h1, h2, this]
      · by_cases h3 : Routing.is_json_only_question q = true <;>
          simp [Routing.get_query_mode, h1, h2, h3] <;> simp_all
  refine ⟨?_, ?_, ?_, hjson, ?_, ?_⟩
  · intro q
    rw [hmode q, is_definition_only_iff q]
    constructor
    · rintro ⟨-, h2, h3, h4⟩; exact ⟨h2, h3, h4⟩
    · rintro ⟨h2, h3, h4⟩
      refine ⟨?_, h2, h3, h4⟩
      rintro rfl
      exact h2 rfl
  · intro q hkw hdoc
    rw [hmode q, is_definition_only_iff q] at hdoc
    simp_all
  · intro q hq
    exact is_json_only_not_def q ((hjson q).mp hq)
  · intro q h1 h2
    unfold Routing.get_query_mode at h1 h2 ⊢
    split_ifs with g1 g2 g3 <;> simp_all
  · intro retr st q
    cases st <;> simp [GraphNodes.retrieve_node]

/-- Witness for C8 at concrete inputs: "what is the width of the plot?" contains
the drawing keyword "plot", so it is vetoed out of `doc_only` (it routes
`json_only`), and in `json_only` mode retrieval returns nothing. -/
theorem c8_query_router_modes_witness :
    Routing.get_query_mode "what is the width of the plot?" ≠ .doc_only ∧
    GraphNodes.retrieve_node (some ⟨5, none⟩) (fun _ _ _ => [⟨"c", none, none, none, "t", none⟩])
      "what is the width of the plot?" .json_only = [] :=
  ⟨c8_query_router_modes.2.1 "what is the width of the plot?" (by decide),
   c8_query_router_modes.2.2.2.2.2 _ _ _⟩

/-- **C2 (counterexample).** The claim says the first guard to fire determines
the final `GuardResult` and later guards never replace it.  For the question
"does this property front the highway, what do you need" with a `Highway`
object lacking geometry, the geometry guard fires `missing_geometry
["Highway"]`, but in the compiled single-shot graph the needs-input follow-up
guard still runs afterwards and overwrites the result with `needs_input
["Highway"]`; the streaming driver short-circuits and keeps
`missing_geometry`, so the two drivers also disagree. -/
theorem c2_guard_precedence_counterexample :
    GraphNodes.geometry_guard_node "does this property front the highway, what do you need"
        [⟨some "Highway", none, none⟩] =
      some (.missing_geometry ["Highway"]) ∧
    Followups.is_needs_input_followup
        "does this property front the highway, what do you need" = true ∧
    GraphNodes.runGuardsGraph "does this property front the highway, what do you need"
        [⟨some "Highway", none, none⟩] =
      some (.needs_input ["Highway"]) ∧
    GraphNodes.runGuardsGraph "does this property front the highway, what do you need"
        [⟨some "Highway", none, none⟩] ≠
      some (.missing_geometry ["Highway"]) ∧
    GraphNodes.runGuardsStream "does this property front the highway, what do you need"
        [⟨some "Highway", none, none⟩] =
      some (.missing_geometry ["Highway"]) := by
  refine ⟨by decide, by decide, by decide, by decide, by decide⟩

/-- **C2 (amended).** Guards run in the fixed order small-talk, geometry,
needs-input follow-up.  Small talk firing ends the chain at once (in both
drivers), so "hi" yields `smalltalk` for any session objects; when the
follow-up guard abstains, the geometry guard's result (or `none`) is final and
both drivers agree; no guard firing is exactly all three abstaining, and only
then does the request proceed to routing.  However, in the compiled
single-shot graph the follow-up node runs even after the geometry guard fired,
and when it fires it replaces the geometry guard's `missing_geometry` result
(first-fire-wins holds unconditionally only in the streaming driver). -/
theorem c2_guard_precedence_amended :
    (∀ (q : String) (objs : List GeometryGuard.SessionObject),
        Smalltalk.is_smalltalk q = true →
          GraphNodes.runGuardsGraph q objs = some .smalltalk ∧
          GraphNodes.runGuardsStream q objs = some .smalltalk) ∧
    (∀ objs : List GeometryGuard.SessionObject,
        GraphNodes.runGuardsGraph "hi" objs = some .smalltalk) ∧
    (∀ (q : String) (objs : List GeometryGuard.SessionObject),
        Smalltalk.is_smalltalk q = false →
        GraphNodes.followup_node q objs = none →
          GraphNodes.runGuardsGraph q objs = GraphNodes.geometry_guard_node q objs ∧
          GraphNodes.runGuardsStream q objs = GraphNodes.geometry_guard_node q objs) ∧
    (∀ (q : String) (objs : List GeometryGuard.SessionObject) (r : GraphNodes.GuardResult),
        Smalltalk.is_smalltalk q = false →
        GraphNodes.followup_node q objs = some r →
          GraphNodes.runGuardsGraph q objs = some r) ∧
    (∀ (q : String) (objs : List GeometryGuard.SessionObject) (r : GraphNodes.GuardResult),
        GraphNodes.geometry_guard_node q objs = some r →
          GraphNodes.runGuardsStream q objs = some r ∨
          GraphNodes.runGuardsStream q objs = some .smalltalk) ∧
    (∀ (q : String) (objs : List GeometryGuard.SessionObject),
        GraphNodes.runGuardsGraph q objs = none ↔
          (GraphNodes.smalltalk_node q = none ∧
           GraphNodes.geometry_guard_node q objs = none ∧
           GraphNodes.followup_node q objs = none)) := by
  refine ⟨?_, ?_, ?_, ?_, ?_, ?_⟩
  · intro q objs h
    constructor <;>
      simp [GraphNodes.runGuardsGraph, GraphNodes.runGuardsStream,
        GraphNodes.smalltalk_node, h]
  · intro objs
    have h : Smalltalk.is_smalltalk "hi" = true := by decide
    simp [GraphNodes.runGuardsGraph, GraphNodes.smalltalk_node, h]
  · intro q objs hsm hfu
    constructor <;>
      simp [GraphNodes.runGuardsGraph, GraphNodes.runGuardsStream,
        GraphNodes.smalltalk_node, hsm, hfu] <;>
      cases GraphNodes.geometry_guard_node q objs <;> simp
  · intro q objs r hsm hfu
    simp [GraphNodes.runGuardsGraph, GraphNodes.smalltalk_node, hsm, hfu]
  · intro q objs r hgeo
    cases hsm : GraphNodes.smalltalk_node q with
    | some s =>
      right
      have : s = .smalltalk := by
        revert hsm
        unfold GraphNodes.smalltalk_node
        split_ifs <;> simp_all
      subst this
      simp [GraphNodes.runGuardsStream, hsm]
    | none =>
      left
      simp [GraphNodes.runGuardsStream, hsm, hgeo]
  · intro q objs
    unfold GraphNodes.runGuardsGraph
    cases hsm : GraphNodes.smalltalk_node q <;>
      cases hgeo : GraphNodes.geometry_guard_node q objs <;>
      cases hfu : GraphNodes.followup_node q objs <;> simp

/-- Witness for C2 (amended) at concrete inputs: "hi" fires small talk in both
drivers, and for the overwriting question the follow-up result is final in the
graph driver. -/
theorem c2_guard_precedence_amended_witness :
    GraphNodes.runGuardsGraph "hi" [] = some .smalltalk ∧
    GraphNodes.runGuardsGraph "does this property front the highway, what do you need"
        [⟨some "Highway", none, none⟩] = some (.needs_input ["Highway"]) :=
  ⟨(c2_guard_precedence_amended.1 "hi" [] (by decide)).1,
   c2_guard_precedence_amended.2.2.2.1
     "does this property front the highway, what do you need"
     [⟨some "Highway", none, none⟩] (.needs_input ["Highway"]) (by decide) (by decide)⟩


namespace GeometryGuard

lemma groupsLookup_nil (k : String) : groupsLookup [] k = [] := rfl

lemma groupsLookup_add (gs : List (String × List SessionObject)) (req : String)
    (o : SessionObject) (k : String) :
    groupsLookup (addObjToGroups gs req o) k =
      if k = req then groupsLookup gs k ++ [o] else groupsLookup gs k := by
  induction gs with
  | nil =>
    by_cases h : k = req <;> simp [addObjToGroups, groupsLookup, h]
    · exact fun hc => absurd hc.symm h
  | cons e rest ih =>
    obtain ⟨k', g⟩ := e
    by_cases h1 : k' = req
    · subst h1
      by_cases h2 : k = k'
      · subst h2
        simp [addObjToGroups, groupsLookup]
      · simp [addObjToGroups, groupsLookup, h2, Ne.symm h2]
    · by_cases h2 : k' = k
      · subst h2
        have hkr : ¬ k' = req := h1
        simp [addObjToGroups, if_neg h1, groupsLookup, hkr]
      · simp [addObjToGroups, if_neg h1, groupsLookup, h2, ih]

lemma keys_add (gs : List (String × List SessionObject)) (req : String)
    (o : SessionObject) :
    (addObjToGroups gs req o).map Prod.fst =
      if req ∈ gs.map Prod.fst then gs.map Prod.fst else gs.map Prod.fst ++ [req] := by
  induction gs with
  | nil => simp [addObjToGroups]
  | cons e rest ih =>
    obtain ⟨k', g⟩ := e
    by_cases h1 : k' = req
    · subst h1
      simp [addObjToGroups]
    · simp only [addObjToGroups, if_neg h1, List.map_cons]
      rw [ih]
      by_cases h2 : req ∈ rest.map Prod.fst <;>
        simp [h2, Ne.symm h1]

lemma entries_nonempty_add (gs : List (String × List SessionObject)) (req : String)
    (o : SessionObject) (h : ∀ e ∈ gs, e.2 ≠ []) :
    ∀ e ∈ addObjToGroups gs req o, e.2 ≠ [] := by
  induction gs with
  | nil =>
    intro e he
    simp [addObjToGroups] at he
    subst he
    simp
  | cons e0 rest ih =>
    obtain ⟨k', g⟩ := e0
    by_cases h1 : k' = req
    · subst h1
      intro e he
      rw [show addObjToGroups ((k', g) :: rest) k' o = (k', g ++ [o]) :: rest from by
        simp [addObjToGroups]] at he
      rcases List.mem_cons.mp he with h2 | h2
      · subst h2; simp
      · exact h e (List.mem_cons_of_mem _ h2)
    · intro e he
      simp only [addObjToGroups, if_neg h1, List.mem_cons] at he
      rcases he with he | he
      · subst he
        exact h (k', g) (List.mem_cons_self _ _)
      · exact ih (fun x hx => h x (List.mem_cons_of_mem _ hx)) e he

lemma mem_assoc_iff (gs : List (String × List SessionObject))
    (hnd : (gs.map Prod.fst).Nodup) (L : String) (g : List SessionObject) :
    (L, g) ∈ gs ↔ L ∈ gs.map Prod.fst ∧ groupsLookup gs L = g := by
  induction gs with
  | nil => simp [groupsLookup]
  | cons e rest ih =>
    obtain ⟨k', g'⟩ := e
    simp only [List.map_cons, List.nodup_cons] at hnd
    by_cases h1 : L = k'
    · subst h1
      simp only [groupsLookup, if_pos rfl, List.mem_cons, List.map_cons]
      constructor
      · intro h
        rcases h with h | h
        · simp at h
          subst h
          simp
        · exact absurd (List.mem_map.mpr ⟨(L, g), h, rfl⟩) hnd.1
      · rintro ⟨-, hl⟩
        subst hl
        left
        rfl
    · have e2 : groupsLookup ((k', g') :: rest) L = groupsLookup rest L := by
        simp [groupsLookup, Ne.symm]
        intro hc
        exact absurd hc.symm h1
      rw [e2]
      simp only [List.mem_cons, List.map_cons]
      constructor
      · intro h
        rcases h with h | h
        · exact absurd (congrArg Prod.fst h) (by simpa using h1)
        · have := (ih hnd.2).mp h
          exact ⟨Or.inr this.1, this.2⟩
      · rintro ⟨hm, hl⟩
        rcases hm with hm | hm
        · exact absurd hm h1
        · exact Or.inr ((ih hnd.2).mpr ⟨hm, hl⟩)

end GeometryGuard

namespace GeometryGuard

lemma mem_keys_of_lookup_ne_nil (gs : List (String × List SessionObject)) (k : String)
    (h : groupsLookup gs k ≠ []) : k ∈ gs.map Prod.fst := by
  induction gs with
  | nil => simp [groupsLookup] at h
  | cons e rest ih =>
    by_cases h1 : e.1 = k
    · simp [h1]
    · simp only [groupsLookup, if_neg h1] at h
      simp [ih h]

lemma lookup_nonempty_of_mem_keys (gs : List (String × List SessionObject))
    (hne : ∀ e ∈ gs, e.2 ≠ []) (k : String) (hk : k ∈ gs.map Prod.fst) :
    groupsLookup gs k ≠ [] := by
  induction gs with
  | nil => simp at hk
  | cons e rest ih =>
    by_cases h1 : e.1 = k
    · simp only [groupsLookup, if_pos h1]
      exact hne e (List.mem_cons_self _ _)
    · simp only [groupsLookup, if_neg h1]
      apply ih (fun x hx => hne x (List.mem_cons_of_mem _ hx))
      simp only [List.map_cons, List.mem_cons] at hk
      rcases hk with hk | hk
      · exact absurd hk.symm h1
      · exact hk

lemma fold_lookup (required : List String) (objs : List SessionObject)
    (gs : List (String × List SessionObject)) (k : String) :
    groupsLookup (objs.foldl (fun gs o =>
        match assignReq required o with
        | none => gs
        | some req => addObjToGroups gs req o) gs) k =
      groupsLookup gs k ++ objs.filter (fun o => assignReq required o == some k) := by
  induction objs generalizing gs with
  | nil => simp
  | cons o rest ih =>
    rw [List.filter_cons]
    cases ha : assignReq required o with
    | none =>
      rw [if_neg (by simp)]
      simp only [List.foldl_cons, ha]
      exact ih gs
    | some req =>
      by_cases hk : req = k
      · subst hk
        rw [if_pos (by simp)]
        simp only [List.foldl_cons, ha]
        rw [ih (addObjToGroups gs req o), groupsLookup_add, if_pos rfl]
        simp
      · rw [if_neg (by simp [hk])]
        simp only [List.foldl_cons, ha]
        rw [ih (addObjToGroups gs req o), groupsLookup_add,
          if_neg (fun hc => hk hc.symm)]

lemma fold_keys_nodup (required : List String) (objs : List SessionObject)
    (gs : List (String × List SessionObject)) (hnd : (gs.map Prod.fst).Nodup) :
    ((objs.foldl (fun gs o =>
        match assignReq required o with
        | none => gs
        | some req => addObjToGroups gs req o) gs).map Prod.fst).Nodup := by
  induction objs generalizing gs with
  | nil => simpa using hnd
  | cons o rest ih =>
    simp only [List.foldl_cons]
    cases ha : assignReq required o with
    | none => simp only [ha]; exact ih gs hnd
    | some req =>
      simp only [ha]
      apply ih
      rw [keys_add]
      by_cases h : req ∈ gs.map Prod.fst
      · simpa [h] using hnd
      · rw [if_neg h, List.nodup_append]
        refine ⟨hnd, List.nodup_singleton req, ?_⟩
        intro x hx1 hx2
        simp only [List.mem_singleton] at hx2
        subst hx2
        exact h hx1

lemma fold_entries_nonempty (required : List String) (objs : List SessionObject)
    (gs : List (String × List SessionObject)) (h : ∀ e ∈ gs, e.2 ≠ []) :
    ∀ e ∈ objs.foldl (fun gs o =>
        match assignReq required o with
        | none => gs
        | some req => addObjToGroups gs req o) gs, e.2 ≠ [] := by
  induction objs generalizing gs with
  | nil => simpa using h
  | cons o rest ih =>
    simp only [List.foldl_cons]
    cases ha : assignReq required o with
    | none => simp only [ha]; exact ih gs h
    | some req =>
      simp only [ha]
      exact ih _ (entries_nonempty_add gs req o h)

lemma assignReq_mem {required : List String} {L : String} {o : SessionObject}
    (h : assignReq required o = some L) : L ∈ required ∧ carriesB o L = true := by
  unfold assignReq at h
  cases hl : layerName o with
  | none => rw [hl] at h; cases h
  | some layer =>
    rw [hl] at h
    have hm := List.mem_of_find?_eq_some h
    have hp := List.find?_some h
    exact ⟨hm, by simp [carriesB, hl]; simpa using hp⟩

lemma find?_layerMatches_unique {required : List String} {layer L : String}
    (U : ∀ r1 ∈ required, ∀ r2 ∈ required,
      layerMatches layer r1 = true → layerMatches layer r2 = true → r1 = r2) :
    required.find? (fun r => layerMatches layer r) = some L ↔
      L ∈ required ∧ layerMatches layer L = true := by
  constructor
  · intro h
    exact ⟨List.mem_of_find?_eq_some h, by simpa using List.find?_some h⟩
  · rintro ⟨hm, hmatch⟩
    cases hf : required.find? (fun r => layerMatches layer r) with
    | none =>
      have := List.find?_eq_none.mp hf L hm
      simp [hmatch] at this
    | some r =>
      have hrm := List.mem_of_find?_eq_some hf
      have hrp : layerMatches layer r = true := by simpa using List.find?_some hf
      rw [U r hrm L hm hrp hmatch]

lemma assignReq_iff {required : List String} {o : SessionObject} {L : String}
    (U : ∀ l, layerName o = some l → ∀ r1 ∈ required, ∀ r2 ∈ required,
      layerMatches l r1 = true → layerMatches l r2 = true → r1 = r2) :
    assignReq required o = some L ↔ (L ∈ required ∧ carriesB o L = true) := by
  unfold assignReq
  cases hl : layerName o with
  | none => simp [carriesB, hl]
  | some layer =>
    rw [find?_layerMatches_unique (U layer hl)]
    simp [carriesB, hl]

lemma mem_missing_iff (objs : List SessionObject) (required : List String) (L : String)
    (hr : required ≠ []) (ho : objs ≠ []) :
    L ∈ missing_geometry_layers objs required ↔
      (objs.filter (fun o => assignReq required o == some L) ≠ [] ∧
       ∀ o ∈ objs.filter (fun o => assignReq required o == some L),
         has_geometry o = false) := by
  unfold missing_geometry_layers groupByRequired
  rw [if_neg hr, if_neg ho]
  have hnd := fold_keys_nodup required objs [] (by simp)
  have hne := fold_entries_nonempty required objs [] (by simp)
  have hlk := fold_lookup required objs [] L
  rw [groupsLookup_nil, List.nil_append] at hlk
  set G := objs.foldl (fun gs o =>
      match assignReq required o with
      | none => gs
      | some req => addObjToGroups gs req o) [] with hG
  constructor
  · intro h
    obtain ⟨e, he, hfst⟩ := List.mem_map.mp h
    obtain ⟨heG, hpred⟩ := List.mem_filter.mp he
    obtain ⟨L', g⟩ := e
    simp only at hfst
    subst hfst
    have hlook := ((mem_assoc_iff G hnd L' g).mp heG).2
    rw [hlk] at hlook
    simp only [Bool.and_eq_true, Bool.not_eq_true', List.all_eq_true] at hpred
    constructor
    · rw [hlook]
      intro hc
      rw [hc] at hpred
      simp at hpred
    · intro o hmem
      rw [hlook] at hmem
      exact hpred.2 o hmem
  · rintro ⟨hnempty, hall⟩
    have hlookL : groupsLookup G L =
        objs.filter (fun o => assignReq required o == some L) := hlk
    have hkeys : L ∈ G.map Prod.fst := by
      apply mem_keys_of_lookup_ne_nil
      rw [hlookL]
      exact hnempty
    have hmemG : (L, objs.filter (fun o => assignReq required o == some L)) ∈ G :=
      (mem_assoc_iff G hnd L _).mpr ⟨hkeys, hlookL⟩
    apply List.mem_map.mpr
    refine ⟨(L, objs.filter (fun o => assignReq required o == some L)), ?_, rfl⟩
    apply List.mem_filter.mpr
    refine ⟨hmemG, ?_⟩
    simp only [Bool.and_eq_true, Bool.not_eq_true', List.all_eq_true]
    constructor
    · cases h' : objs.filter (fun o => assignReq required o == some L) with
      | nil => exact absurd h' hnempty
      | cons a t => rfl
    · intro o hmem
      simp [hall o hmem]

end GeometryGuard

namespace GeometryGuard

lemma mem_missing_carrier (objs : List SessionObject) (required : List String)
    (L : String) (h : L ∈ missing_geometry_layers objs required) :
    L ∈ required ∧ ∃ o ∈ objs, carriesB o L = true ∧ has_geometry o = false := by
  by_cases hr : required = []
  · subst hr
    unfold missing_geometry_layers at h
    simp at h
  · by_cases ho : objs = []
    · subst ho
      unfold missing_geometry_layers at h
      rw [if_neg hr] at h
      simp at h
    · obtain ⟨hne, hall⟩ := (mem_missing_iff objs required L hr ho).mp h
      obtain ⟨o, hofil⟩ := List.exists_mem_of_ne_nil _ hne
      obtain ⟨hoobjs, hbeq⟩ := List.mem_filter.mp hofil
      have hassign : assignReq required o = some L := by simpa using hbeq
      obtain ⟨hLreq, hcar⟩ := assignReq_mem hassign
      exact ⟨hLreq, o, hoobjs, hcar, hall o hofil⟩

end GeometryGuard

/-- **C7 (counterexample).** The claim says a required layer is returned only
if every object carrying it (case/substring layer matching) lacks usable
geometry.  With required layers `{Highway, Plot Boundary}` and objects whose
layers are "Highway Plot Boundary" (with geometry), "Highway" (no geometry)
and "Plot Boundary" (no geometry), the combined-layer object matches both
required layers but is assigned to only one bucket (the first match in set
iteration order), so — for either iteration order of the required set — the
other layer is reported missing even though an object carrying it has usable
geometry. -/
theorem c7_missing_geometry_counterexample :
    (∃ L ∈ GeometryGuard.missing_geometry_layers
        [⟨some "Highway Plot Boundary", none, some ⟨some [.nested [0, 0], .nested [1, 0]]⟩⟩,
         ⟨some "Highway", none, none⟩,
         ⟨some "Plot Boundary", none, none⟩]
        ["Highway", "Plot Boundary"],
      ∃ o ∈ ([⟨some "Highway Plot Boundary", none, some ⟨some [.nested [0, 0], .nested [1, 0]]⟩⟩,
         ⟨some "Highway", none, none⟩,
         ⟨some "Plot Boundary", none, none⟩] : List GeometryGuard.SessionObject),
        GeometryGuard.carriesB o L = true ∧ GeometryGuard.has_geometry o = true) ∧
    (∃ L ∈ GeometryGuard.missing_geometry_layers
        [⟨some "Highway Plot Boundary", none, some ⟨some [.nested [0, 0], .nested [1, 0]]⟩⟩,
         ⟨some "Highway", none, none⟩,
         ⟨some "Plot Boundary", none, none⟩]
        ["Plot Boundary", "Highway"],
      ∃ o ∈ ([⟨some "Highway Plot Boundary", none, some ⟨some [.nested [0, 0], .nested [1, 0]]⟩⟩,
         ⟨some "Highway", none, none⟩,
         ⟨some "Plot Boundary", none, none⟩] : List GeometryGuard.SessionObject),
        GeometryGuard.carriesB o L = true ∧ GeometryGuard.has_geometry o = true) := by
  constructor <;> decide

/-- **C7 (amended).** `missing_geometry_layers` assigns each object to the
bucket of the *first* required layer its layer name matches (set-iteration
order), and returns the required layers whose bucket is nonempty and contains
only objects without usable geometry.  Consequently: (1) a returned layer is
always a required layer carried by at least one geometry-less object — in
particular a required layer with zero objects never appears; (2) when no
object's layer matches two distinct required layers, a required layer is
returned iff at least one object carries it and every object carrying it lacks
usable geometry; (3) on the spec's example the result is exactly
`["Highway"]`. -/
theorem c7_missing_geometry_amended :
    (∀ (objs : List GeometryGuard.SessionObject) (required : List String) (L : String),
        L ∈ GeometryGuard.missing_geometry_layers objs required →
          L ∈ required ∧ ∃ o ∈ objs, GeometryGuard.carriesB o L = true ∧
            GeometryGuard.has_geometry o = false) ∧
    (∀ (objs : List GeometryGuard.SessionObject) (required : List String) (L : String),
        (∀ o ∈ objs, ∀ r1 ∈ required, ∀ r2 ∈ required,
            GeometryGuard.carriesB o r1 = true → GeometryGuard.carriesB o r2 = true →
              r1 = r2) →
        (L ∈ GeometryGuard.missing_geometry_layers objs required ↔
          L ∈ required ∧ (∃ o ∈ objs, GeometryGuard.carriesB o L = true) ∧
          (∀ o ∈ objs, GeometryGuard.carriesB o L = true →
            GeometryGuard.has_geometry o = false))) ∧
    GeometryGuard.missing_geometry_layers
        [⟨some "Highway", none, none⟩,
         ⟨some "Plot Boundary", none, some ⟨some [.nested [0, 0], .nested [1, 0]]⟩⟩]
        ["Highway", "Plot Boundary"] = ["Highway"] := by
  refine ⟨fun objs required L h => GeometryGuard.mem_missing_carrier objs required L h,
    ?_, by decide⟩
  intro objs required L hU
  have hUo : ∀ o ∈ objs, ∀ l, GeometryGuard.layerName o = some l →
      ∀ r1 ∈ required, ∀ r2 ∈ required,
        GeometryGuard.layerMatches l r1 = true → GeometryGuard.layerMatches l r2 = true →
          r1 = r2 := by
    intro o ho l hl r1 hr1 r2 hr2 hm1 hm2
    exact hU o ho r1 hr1 r2 hr2 (by simp [GeometryGuard.carriesB, hl, hm1])
      (by simp [GeometryGuard.carriesB, hl, hm2])
  constructor
  · intro h
    obtain ⟨hLreq, o, hoobjs, hcar, hgeo⟩ := GeometryGuard.mem_missing_carrier _ _ _ h
    refine ⟨hLreq, ⟨o, hoobjs, hcar⟩, ?_⟩
    intro o2 ho2 hcar2
    have hr : required ≠ [] := by rintro rfl; simp at hLreq
    have ho : objs ≠ [] := by rintro rfl; simp at hoobjs
    obtain ⟨-, hall⟩ := (GeometryGuard.mem_missing_iff objs required L hr ho).mp h
    apply hall
    apply List.mem_filter.mpr
    refine ⟨ho2, ?_⟩
    have : GeometryGuard.assignReq required o2 = some L :=
      (GeometryGuard.assignReq_iff (hUo o2 ho2)).mpr ⟨hLreq, hcar2⟩
    simp [this]
  · rintro ⟨hLreq, ⟨o, hoobjs, hcar⟩, hnogeo⟩
    have hr : required ≠ [] := by rintro rfl; simp at hLreq
    have ho : objs ≠ [] := by rintro rfl; simp at hoobjs
    apply (GeometryGuard.mem_missing_iff objs required L hr ho).mpr
    have hassign : GeometryGuard.assignReq required o = some L :=
      (GeometryGuard.assignReq_iff (hUo o hoobjs)).mpr ⟨hLreq, hcar⟩
    constructor
    · have : o ∈ objs.filter (fun o => GeometryGuard.assignReq required o == some L) :=
        List.mem_filter.mpr ⟨hoobjs, by simp [hassign]⟩
      exact List.ne_nil_of_mem this
    · intro o2 ho2
      obtain ⟨ho2objs, hbeq⟩ := List.mem_filter.mp ho2
      have : GeometryGuard.assignReq required o2 = some L := by simpa using hbeq
      have hcar2 := (GeometryGuard.assignReq_mem this).2
      exact hnogeo o2 ho2objs hcar2

/-- Witness for C7 (amended) at the spec's example: required
`{Highway, Plot Boundary}` with a geometry-less `Highway` object and a
`Plot Boundary` object with coordinates — no object matches two required
layers, and `Highway` is reported via the characterisation. -/
theorem c7_missing_geometry_amended_witness :
    "Highway" ∈ GeometryGuard.missing_geometry_layers
      [⟨some "Highway", none, none⟩,
       ⟨some "Plot Boundary", none, some ⟨some [.nested [0, 0], .nested [1, 0]]⟩⟩]
      ["Highway", "Plot Boundary"] :=
  (c7_missing_geometry_amended.2.1
    [⟨some "Highway", none, none⟩,
     ⟨some "Plot Boundary", none, some ⟨some [.nested [0, 0], .nested [1, 0]]⟩⟩]
    ["Highway", "Plot Boundary"] "Highway" (by decide)).mpr (by decide)

/-- **C10.** Layer matching is case-insensitive and by substring containment in
either direction: an object whose (lowercased) layer name contains a required
layer name, or is contained in it, counts as belonging to that required layer;
and the names returned by `missing_geometry_layers` are always the canonical
spellings from the required set ("Plot Boundary Line" with a null geometry is
reported as "Plot Boundary"). -/
theorem c10_layer_matching_substring :
    (∀ (objs : List GeometryGuard.SessionObject) (required : List String) (L : String),
        L ∈ GeometryGuard.missing_geometry_layers objs required → L ∈ required) ∧
    (∀ l r : String, lcList l.data = lcList r.data →
        GeometryGuard.layerMatches l r = true) ∧
    (∀ l r : String, hasSub (lcList l.data) (lcList r.data) = true →
        GeometryGuard.layerMatches l r = true) ∧
    (∀ l r : String, hasSub (lcList r.data) (lcList l.data) = true →
        GeometryGuard.layerMatches l r = true) ∧
    GeometryGuard.layerMatches "Plot Boundary Line" "Plot Boundary" = true ∧
    GeometryGuard.layerMatches "Plot" "Plot Boundary" = true ∧
    GeometryGuard.layerMatches "plot boundary" "Plot Boundary" = true ∧
    GeometryGuard.missing_geometry_layers
      [⟨some "Plot Boundary Line", none, none⟩] ["Plot Boundary"] = ["Plot Boundary"] := by
  refine ⟨?_, ?_, ?_, ?_, by decide, by decide, by decide, by decide⟩
  · intro objs required L h
    exact (GeometryGuard.mem_missing_carrier objs required L h).1
  · intro l r h
    simp [GeometryGuard.layerMatches, h]
  · intro l r h
    simp [GeometryGuard.layerMatches, h]
  · intro l r h
    simp [GeometryGuard.layerMatches, h]

/-- Witness for C10 at concrete inputs: "Highway One" contains "highway"
case-insensitively, so it matches the required layer `highway`. -/
theorem c10_layer_matching_substring_witness :
    GeometryGuard.layerMatches "Highway One" "highway" = true :=
  c10_layer_matching_substring.2.2.1 "Highway One" "highway" (by decide)

/-- **C1 (counterexample).** The claim says the single-shot and streaming
pipelines apply the same skip rule (empty retrieval or extracted term absent
from every chunk) and produce the same answer.  For the `doc_only` question
`What is meant by "side elevation"?` with one retrieved chunk that does not
contain "side elevation", the streaming pipeline substitutes the fixed
not-found message, but the single-shot graph's `llm_node` checks only for an
empty list and calls the generation chain — the two answers differ. -/
theorem c1_doc_only_rule_counterexample :
    Routing.get_query_mode "What is meant by \"side elevation\"?" = .doc_only ∧
    DocOnlyGuard.extract_definition_term "What is meant by \"side elevation\"?" =
      some "side elevation".data ∧
    DocOnlyGuard.term_appears_in_chunks "side elevation".data
      [⟨"c1", some "doc.pdf", some "1", none,
        "The principal elevation fronts the highway.", some 1⟩] = false ∧
    Orchestrator.stream_doc_only (fun _ _ => "Side elevation means X.")
      "What is meant by \"side elevation\"?"
      [⟨"c1", some "doc.pdf", some "1", none,
        "The principal elevation fronts the highway.", some 1⟩] =
      Chains.DOC_ONLY_EMPTY_MESSAGE ∧
    GraphNodes.llm_node_doc_only (fun _ _ => "Side elevation means X.")
      "What is meant by \"side elevation\"?"
      [⟨"c1", some "doc.pdf", some "1", none,
        "The principal elevation fronts the highway.", some 1⟩] =
      "Side elevation means X." ∧
    GraphNodes.llm_node_doc_only (fun _ _ => "Side elevation means X.")
      "What is meant by \"side elevation\"?"
      [⟨"c1", some "doc.pdf", some "1", none,
        "The principal elevation fronts the highway.", some 1⟩] ≠
    Orchestrator.stream_doc_only (fun _ _ => "Side elevation means X.")
      "What is meant by \"side elevation\"?"
      [⟨"c1", some "doc.pdf", some "1", none,
        "The principal elevation fronts the highway.", some 1⟩] := by
  refine ⟨by decide, by decide, by decide, by decide, by decide, by decide⟩

/-- **C1 (amended).** The streaming pipeline skips generation and substitutes
the fixed "no definition found" message exactly when the retrieved chunk list
is empty or an extracted definition term does not appear (case- and
hyphen-insensitively) in any retrieved chunk's text; the single-shot graph
pipeline applies only the empty-list check, never the term check.  The two
pipelines produce the same answer text exactly on inputs where the term guard
passes or the chunk list is empty; on a nonempty chunk list lacking the
extracted term they diverge. -/
theorem c1_doc_only_rule_amended :
    (∀ (q : String) (docs : List RetrievedChunk),
        DocOnlyGuard.should_use_retrieved_for_doc_only q docs = true ↔
          (docs ≠ [] ∧ ∀ t, DocOnlyGuard.extract_definition_term q = some t →
            DocOnlyGuard.term_appears_in_chunks t docs = true)) ∧
    (∀ (gen : String → List RetrievedChunk → String) (q : String)
        (docs : List RetrievedChunk),
        Orchestrator.stream_doc_only gen q docs =
          if DocOnlyGuard.should_use_retrieved_for_doc_only q docs then gen q docs
          else Chains.DOC_ONLY_EMPTY_MESSAGE) ∧
    (∀ (gen : String → List RetrievedChunk → String) (q : String)
        (docs : List RetrievedChunk),
        GraphNodes.llm_node_doc_only gen q docs =
          if docs = [] then Chains.DOC_ONLY_EMPTY_MESSAGE else gen q docs) ∧
    (∀ (gen : String → List RetrievedChunk → String) (q : String)
        (docs : List RetrievedChunk),
        docs ≠ [] →
        DocOnlyGuard.should_use_retrieved_for_doc_only q docs = false →
          Orchestrator.stream_doc_only gen q docs = Chains.DOC_ONLY_EMPTY_MESSAGE ∧
          GraphNodes.llm_node_doc_only gen q docs = gen q docs) ∧
    (∀ (gen : String → List RetrievedChunk → String) (q : String)
        (docs : List RetrievedChunk),
        docs = [] ∨ DocOnlyGuard.should_use_retrieved_for_doc_only q docs = true →
          GraphNodes.llm_node_doc_only gen q docs =
            Orchestrator.stream_doc_only gen q docs) := by
  have hA : ∀ (q : String) (docs : List RetrievedChunk),
      DocOnlyGuard.should_use_retrieved_for_doc_only q docs = true ↔
        (docs ≠ [] ∧ ∀ t, DocOnlyGuard.extract_definition_term q = some t →
          DocOnlyGuard.term_appears_in_chunks t docs = true) := by
    intro q docs
    unfold DocOnlyGuard.should_use_retrieved_for_doc_only
    by_cases hd : docs = []
    · simp [hd]
    · rw [if_neg hd]
      cases he : DocOnlyGuard.extract_definition_term q with
      | none => simp [hd]
      | some t => simp [hd, he]
  refine ⟨hA, ?_, ?_, ?_, ?_⟩
  · intro gen q docs
    unfold Orchestrator.stream_doc_only
    by_cases hd : docs = []
    · subst hd
      have h0 : DocOnlyGuard.should_use_retrieved_for_doc_only q [] = false := rfl
      simp [h0]
    · cases hu : DocOnlyGuard.should_use_retrieved_for_doc_only q docs <;>
        simp [hd, hu]
  · intro gen q docs
    rfl
  · intro gen q docs hd hu
    constructor
    · unfold Orchestrator.stream_doc_only
      simp [hu]
    · unfold GraphNodes.llm_node_doc_only
      simp [hd]
  · intro gen q docs h
    rcases h with hd | hu
    · subst hd
      unfold GraphNodes.llm_node_doc_only Orchestrator.stream_doc_only
      simp
    · have hd : docs ≠ [] := ((hA q docs).mp hu).1
      unfold GraphNodes.llm_node_doc_only Orchestrator.stream_doc_only
      simp [hd, hu]

/-- Witness for C1 (amended) at a concrete input: on a nonempty chunk list
where the asked term is absent, the streaming path yields the fixed message
while the single-shot path calls generation. -/
theorem c1_doc_only_rule_amended_witness :
    Orchestrator.stream_doc_only (fun _ _ => "GEN") "What is meant by \"side elevation\"?"
      [⟨"c1", some "doc.pdf", some "1", none,
        "The principal elevation fronts the highway.", some 1⟩] =
      Chains.DOC_ONLY_EMPTY_MESSAGE ∧
    GraphNodes.llm_node_doc_only (fun _ _ => "GEN") "What is meant by \"side elevation\"?"
      [⟨"c1", some "doc.pdf", some "1", none,
        "The principal elevation fronts the highway.", some 1⟩] = "GEN" :=
  c1_doc_only_rule_amended.2.2.2.1 (fun _ _ => "GEN")
    "What is meant by \"side elevation\"?"
    [⟨"c1", some "doc.pdf", some "1", none,
      "The principal elevation fronts the highway.", some 1⟩]
    (by decide) (by decide)

namespace RetrievalPostprocess

lemma insAfterEq_perm (x : RetrievedChunk) (l : List RetrievedChunk) :
    List.Perm (insAfterEq x l) (x :: l) := by
  induction l with
  | nil => exact List.Perm.refl _
  | cons y ys ih =>
    unfold insAfterEq
    by_cases h : chunkDistance x < chunkDistance y
    · rw [if_pos h]
    · rw [if_neg h]
      exact List.Perm.trans (ih.cons y) (List.Perm.swap x y ys)

lemma mem_insAfterEq {x a : RetrievedChunk} {l : List RetrievedChunk} :
    a ∈ insAfterEq x l ↔ a = x ∨ a ∈ l := by
  rw [(insAfterEq_perm x l).mem_iff, List.mem_cons]

lemma sorted_insAfterEq (x : RetrievedChunk) {l : List RetrievedChunk}
    (h : l.Sorted distLE) : (insAfterEq x l).Sorted distLE := by
  induction l with
  | nil => simp [insAfterEq, List.sorted_singleton]
  | cons y ys ih =>
    rw [List.sorted_cons] at h
    unfold insAfterEq
    by_cases hlt : chunkDistance x < chunkDistance y
    · rw [if_pos hlt, List.sorted_cons]
      refine ⟨?_, List.sorted_cons.mpr h⟩
      intro b hb
      rcases List.mem_cons.mp hb with rfl | hb
      · exact le_of_lt hlt
      · exact le_trans (le_of_lt hlt) (h.1 b hb)
    · rw [if_neg hlt, List.sorted_cons]
      refine ⟨?_, ih h.2⟩
      intro b hb
      rcases mem_insAfterEq.mp hb with rfl | hb
      · exact not_lt.mp hlt
      · exact h.1 b hb

lemma foldl_ins_sorted (l : List RetrievedChunk) :
    ∀ acc : List RetrievedChunk, acc.Sorted distLE →
      (l.foldl (fun acc x => insAfterEq x acc) acc).Sorted distLE := by
  induction l with
  | nil => intro acc hacc; simpa using hacc
  | cons x l' ih =>
    intro acc hacc
    simp only [List.foldl_cons]
    exact ih _ (sorted_insAfterEq x hacc)

lemma pySort_sorted (l : List RetrievedChunk) : (pySort l).Sorted distLE :=
  foldl_ins_sorted l [] (by simp)

lemma foldl_ins_perm (l : List RetrievedChunk) :
    ∀ acc : List RetrievedChunk,
      List.Perm (l.foldl (fun acc x => insAfterEq x acc) acc) (acc ++ l) := by
  induction l with
  | nil => intro acc; simp
  | cons x l' ih =>
    intro acc
    simp only [List.foldl_cons]
    exact List.Perm.trans (ih _)
      (List.Perm.trans ((insAfterEq_perm x acc).append_right l') List.perm_middle.symm)

lemma pySort_perm (l : List RetrievedChunk) : List.Perm (pySort l) l := by
  simpa using foldl_ins_perm l []

lemma mem_pySort {a : RetrievedChunk} {l : List RetrievedChunk} :
    a ∈ pySort l ↔ a ∈ l := (pySort_perm l).mem_iff

lemma insAfterEq_append {x : RetrievedChunk} {l : List RetrievedChunk}
    (h : ∀ y ∈ l, ¬ chunkDistance x < chunkDistance y) : insAfterEq x l = l ++ [x] := by
  induction l with
  | nil => rfl
  | cons y ys ih =>
    unfold insAfterEq
    rw [if_neg (h y (List.mem_cons_self _ _))]
    rw [ih (fun z hz => h z (List.mem_cons_of_mem _ hz))]
    rfl

lemma insAfterEq_cons_of_forall_lt {x : RetrievedChunk} {l : List RetrievedChunk}
    (h : ∀ z ∈ l, chunkDistance x < chunkDistance z) : insAfterEq x l = x :: l := by
  cases l with
  | nil => rfl
  | cons y ys =>
    unfold insAfterEq
    rw [if_pos (h y (List.mem_cons_self _ _))]

lemma foldl_ins_sorted_id (l : List RetrievedChunk) :
    ∀ acc : List RetrievedChunk, (acc ++ l).Sorted distLE →
      l.foldl (fun acc x => insAfterEq x acc) acc = acc ++ l := by
  induction l with
  | nil => intro acc _; simp
  | cons x l' ih =>
    intro acc h
    have hins : insAfterEq x acc = acc ++ [x] := by
      apply insAfterEq_append
      intro y hy
      have hle : distLE y x :=
        (List.pairwise_append.mp h).2.2 y hy x (List.mem_cons_self _ _)
      exact not_lt.mpr hle
    simp only [List.foldl_cons, hins]
    have h2 : ((acc ++ [x]) ++ l').Sorted distLE := by
      simpa [List.append_assoc] using h
    rw [ih (acc ++ [x]) h2]
    simp

lemma sorted_pySort_id {l : List RetrievedChunk} (h : l.Sorted distLE) :
    pySort l = l := by
  simpa using foldl_ins_sorted_id l [] (by simpa)

lemma pySort_append_one (l : List RetrievedChunk) (c : RetrievedChunk) :
    pySort (l ++ [c]) = insAfterEq c (pySort l) := by
  unfold pySort
  rw [List.foldl_append]
  rfl

lemma insAfterEq_cons (x y : RetrievedChunk) (ys : List RetrievedChunk) :
    insAfterEq x (y :: ys) =
      if chunkDistance x < chunkDistance y then x :: y :: ys
      else y :: insAfterEq x ys := rfl

lemma filter_insAfterEq (p : RetrievedChunk → Bool) (x : RetrievedChunk)
    {acc : List RetrievedChunk} (h : acc.Sorted distLE) :
    (insAfterEq x acc).filter p =
      if p x then insAfterEq x (acc.filter p) else acc.filter p := by
  induction acc with
  | nil =>
    by_cases hx : p x <;> simp [insAfterEq, hx]
  | cons y ys ih =>
    rw [List.sorted_cons] at h
    rw [insAfterEq_cons]
    by_cases hlt : chunkDistance x < chunkDistance y
    · rw [if_pos hlt]
      by_cases hx : p x
      · have hcons : insAfterEq x (List.filter p (y :: ys)) =
            x :: List.filter p (y :: ys) := by
          apply insAfterEq_cons_of_forall_lt
          intro z hz
          rcases List.mem_cons.mp (List.mem_of_mem_filter hz) with rfl | hz2
          · exact hlt
          · exact lt_of_lt_of_le hlt (h.1 z hz2)
        rw [if_pos hx, hcons]
        simp [List.filter_cons, hx]
      · rw [if_neg hx]
        simp [List.filter_cons, hx]
    · rw [if_neg hlt, List.filter_cons, List.filter_cons, ih h.2]
      by_cases hy : p y <;> by_cases hx : p x <;> simp [hy, hx]
      rw [insAfterEq_cons, if_neg hlt]

lemma foldl_ins_filter (p : RetrievedChunk → Bool) (l : List RetrievedChunk) :
    ∀ acc : List RetrievedChunk, acc.Sorted distLE →
      (l.foldl (fun acc x => insAfterEq x acc) acc).filter p =
        (l.filter p).foldl (fun acc x => insAfterEq x acc) (acc.filter p) := by
  induction l with
  | nil => intro acc _; simp
  | cons x l' ih =>
    intro acc hacc
    simp only [List.foldl_cons, List.filter_cons]
    rw [ih _ (sorted_insAfterEq x hacc), filter_insAfterEq p x hacc]
    by_cases hx : p x
    · rw [if_pos hx, if_pos hx]
      simp only [List.foldl_cons]
    · rw [if_neg hx, if_neg hx]

lemma pySort_filter (p : RetrievedChunk → Bool) (l : List RetrievedChunk) :
    (pySort l).filter p = pySort (l.filter p) := by
  unfold pySort
  exact foldl_ins_filter p l [] (by simp)

end RetrievalPostprocess

namespace RetrievalPostprocess

lemma popIfLong_cons (n : Nat) (y : RetrievedChunk) (W : List RetrievedChunk) :
    popIfLong (n + 1) (y :: W) = y :: popIfLong n W := by
  unfold popIfLong
  by_cases h : n < W.length
  · rw [if_pos (by simpa using Nat.succ_lt_succ h), if_pos h]
    cases W with
    | nil => simp at h
    | cons w W2 => rfl
  · rw [if_neg (by simpa using fun hc => h (Nat.lt_of_succ_lt_succ hc)), if_neg h]

lemma popIfLong_take (n : Nat) (l : List RetrievedChunk) :
    popIfLong n (l.take (n + 1)) = l.take n := by
  induction n generalizing l with
  | zero =>
    cases l with
    | nil => simp [popIfLong]
    | cons a l2 => simp [popIfLong, List.take_succ_cons]
  | succ n ih =>
    cases l with
    | nil => simp [popIfLong]
    | cons a l2 =>
      rw [List.take_succ_cons, popIfLong_cons, ih, List.take_succ_cons]

lemma popIfLong_insAfterEq_take {S : List RetrievedChunk} (c : RetrievedChunk)
    (h : S.Sorted distLE) :
    ∀ cap : Nat, popIfLong cap (insAfterEq c (S.take cap)) = (insAfterEq c S).take cap := by
  induction S with
  | nil =>
    intro cap
    cases cap with
    | zero => simp [insAfterEq, popIfLong]
    | succ n => simp [insAfterEq, popIfLong]
  | cons y S2 ih =>
    intro cap
    rw [List.sorted_cons] at h
    cases cap with
    | zero =>
      simp [insAfterEq, popIfLong]
    | succ n =>
      rw [List.take_succ_cons]
      by_cases hlt : chunkDistance c < chunkDistance y
      · rw [insAfterEq_cons, if_pos hlt, insAfterEq_cons, if_pos hlt]
        rw [show (c :: y :: S2.take n : List RetrievedChunk) =
          c :: (y :: S2).take (n + 1) from by rw [List.take_succ_cons]]
        rw [popIfLong_cons, popIfLong_take, List.take_succ_cons]
      · rw [insAfterEq_cons, if_neg hlt, insAfterEq_cons, if_neg hlt]
        rw [popIfLong_cons, ih h.2 n, List.take_succ_cons]

lemma bucket_fold (cap : Nat) (G : List RetrievedChunk) :
    G.foldl (bucketStep cap) [] = (pySort G).take cap := by
  induction G using List.reverseRecOn with
  | nil => simp [pySort]
  | append_singleton l c ih =>
    rw [List.foldl_append, List.foldl_cons, List.foldl_nil, ih]
    unfold bucketStep
    rw [pySort_append_one, sorted_pySort_id (List.Pairwise.sublist (List.take_sublist _ _) (pySort_sorted l))]
    rw [popIfLong_insAfterEq_take c (pySort_sorted l) cap]
    rw [pySort_append_one]

end RetrievalPostprocess

namespace RetrievalPostprocess

lemma bucketsLookup_nil (k : String × Option String) : bucketsLookup [] k = [] := rfl

lemma mem_bucketStep {cap : Nat} {g : List RetrievedChunk} {c x : RetrievedChunk}
    (h : x ∈ bucketStep cap g c) : x ∈ g ∨ x = c := by
  unfold bucketStep popIfLong at h
  have hx : x ∈ pySort (g ++ [c]) := by
    by_cases hc : cap < (pySort (g ++ [c])).length
    · rw [if_pos hc] at h
      exact (List.dropLast_sublist _).mem h
    · rwa [if_neg hc] at h
  rcases List.mem_append.mp (mem_pySort.mp hx) with h2 | h2
  · exact Or.inl h2
  · exact Or.inr (List.mem_singleton.mp h2)

lemma bucketsLookupKey_add (cap : Nat) (K : String × Option String)
    (gs : List ((String × Option String) × List RetrievedChunk))
    (c : RetrievedChunk) (k : String × Option String) :
    bucketsLookup (addToBucketsKey cap K gs c) k =
      if k = K then bucketStep cap (bucketsLookup gs k) c
      else bucketsLookup gs k := by
  induction gs with
  | nil =>
    by_cases h : k = K
    · subst h
      simp [addToBucketsKey, bucketsLookup]
    · simp [addToBucketsKey, bucketsLookup, h, Ne.symm h]
  | cons e rest ih =>
    obtain ⟨k1, g⟩ := e
    by_cases h1 : k1 = K
    · subst h1
      by_cases h2 : k = k1
      · subst h2
        simp [addToBucketsKey, bucketsLookup]
      · simp [addToBucketsKey, bucketsLookup, h2, Ne.symm h2]
    · by_cases h2 : k1 = k
      · subst h2
        have hk : ¬ k1 = K := h1
        simp [addToBucketsKey, if_neg h1, bucketsLookup, hk]
      · simp [addToBucketsKey, if_neg h1, bucketsLookup, h2, ih]

lemma bucketsLookup_add (cap : Nat)
    (gs : List ((String × Option String) × List RetrievedChunk))
    (c : RetrievedChunk) (k : String × Option String) :
    bucketsLookup (addToBuckets cap gs c) k =
      if k = sourcePageKey c then bucketStep cap (bucketsLookup gs k) c
      else bucketsLookup gs k :=
  bucketsLookupKey_add cap (sourcePageKey c) gs c k

lemma buckets_keysKey_add (cap : Nat) (K : String × Option String)
    (gs : List ((String × Option String) × List RetrievedChunk))
    (c : RetrievedChunk) :
    (addToBucketsKey cap K gs c).map Prod.fst =
      if K ∈ gs.map Prod.fst then gs.map Prod.fst
      else gs.map Prod.fst ++ [K] := by
  induction gs with
  | nil => simp [addToBucketsKey]
  | cons e rest ih =>
    obtain ⟨k1, g⟩ := e
    by_cases h1 : k1 = K
    · subst h1
      simp [addToBucketsKey]
    · simp only [addToBucketsKey, if_neg h1, List.map_cons]
      rw [ih]
      by_cases h2 : K ∈ rest.map Prod.fst <;>
        simp [h2, Ne.symm h1]

lemma buckets_keys_add (cap : Nat)
    (gs : List ((String × Option String) × List RetrievedChunk))
    (c : RetrievedChunk) :
    (addToBuckets cap gs c).map Prod.fst =
      if sourcePageKey c ∈ gs.map Prod.fst then gs.map Prod.fst
      else gs.map Prod.fst ++ [sourcePageKey c] :=
  buckets_keysKey_add cap (sourcePageKey c) gs c

lemma buckets_entry_key_add (cap : Nat)
    (gs : List ((String × Option String) × List RetrievedChunk))
    (c : RetrievedChunk)
    (h : ∀ e ∈ gs, ∀ x ∈ e.2, sourcePageKey x = e.1) :
    ∀ e ∈ addToBuckets cap gs c, ∀ x ∈ e.2, sourcePageKey x = e.1 := by
  unfold addToBuckets
  have hgen : ∀ (K : String × Option String), K = sourcePageKey c →
      ∀ (gs2 : List ((String × Option String) × List RetrievedChunk)),
      (∀ e ∈ gs2, ∀ x ∈ e.2, sourcePageKey x = e.1) →
      ∀ e ∈ addToBucketsKey cap K gs2 c, ∀ x ∈ e.2, sourcePageKey x = e.1 := by
    intro K hK gs2
    induction gs2 with
    | nil =>
      intro _ e he x hx
      simp only [addToBucketsKey, List.mem_singleton] at he
      subst he
      rcases mem_bucketStep hx with h2 | h2
      · simp at h2
      · subst h2; simpa using hK.symm
    | cons e0 rest ih =>
      obtain ⟨k1, g⟩ := e0
      intro hh e he x hx
      by_cases h1 : k1 = K
      · subst h1
        rw [show addToBucketsKey cap k1 ((k1, g) :: rest) c =
            (k1, bucketStep cap g c) :: rest from by simp [addToBucketsKey]] at he
        rcases List.mem_cons.mp he with h2 | h2
        · subst h2
          rcases mem_bucketStep hx with h3 | h3
          · exact hh (k1, g) (List.mem_cons_self _ _) x h3
          · subst h3; simpa using hK.symm
        · exact hh e (List.mem_cons_of_mem _ h2) x hx
      · rw [show addToBucketsKey cap K ((k1, g) :: rest) c =
            (k1, g) :: addToBucketsKey cap K rest c from by
              simp [addToBucketsKey, h1]] at he
        rcases List.mem_cons.mp he with h2 | h2
        · subst h2
          exact hh (k1, g) (List.mem_cons_self _ _) x hx
        · exact ih (fun e2 he2 => hh e2 (List.mem_cons_of_mem _ he2)) e h2 x hx
  exact hgen (sourcePageKey c) rfl gs h

lemma buckets_fold_lookup (cap : Nat) (cs : List RetrievedChunk) :
    ∀ (gs : List ((String × Option String) × List RetrievedChunk))
      (k : String × Option String),
      bucketsLookup (cs.foldl (addToBuckets cap) gs) k =
        (cs.filter (fun c => sourcePageKey c == k)).foldl (bucketStep cap)
          (bucketsLookup gs k) := by
  induction cs with
  | nil => intro gs k; simp
  | cons c rest ih =>
    intro gs k
    simp only [List.foldl_cons, List.filter_cons]
    by_cases hk : sourcePageKey c = k
    · rw [if_pos (by simp [hk])]
      rw [ih (addToBuckets cap gs c) k, bucketsLookup_add, if_pos hk.symm]
      simp only [List.foldl_cons]
    · rw [if_neg (by simp [hk])]
      rw [ih (addToBuckets cap gs c) k, bucketsLookup_add,
        if_neg (fun hc => hk hc.symm)]

lemma buckets_fold_keys_nodup (cap : Nat) (cs : List RetrievedChunk) :
    ∀ gs : List ((String × Option String) × List RetrievedChunk),
      (gs.map Prod.fst).Nodup →
      ((cs.foldl (addToBuckets cap) gs).map Prod.fst).Nodup := by
  induction cs with
  | nil => intro gs h; simpa using h
  | cons c rest ih =>
    intro gs h
    simp only [List.foldl_cons]
    apply ih
    rw [buckets_keys_add]
    by_cases h2 : sourcePageKey c ∈ gs.map Prod.fst
    · simpa [h2] using h
    · rw [if_neg h2, List.nodup_append]
      refine ⟨h, List.nodup_singleton _, ?_⟩
      intro x hx1 hx2
      simp only [List.mem_singleton] at hx2
      subst hx2
      exact h2 hx1

lemma buckets_fold_entry_key (cap : Nat) (cs : List RetrievedChunk) :
    ∀ gs : List ((String × Option String) × List RetrievedChunk),
      (∀ e ∈ gs, ∀ x ∈ e.2, sourcePageKey x = e.1) →
      ∀ e ∈ cs.foldl (addToBuckets cap) gs, ∀ x ∈ e.2, sourcePageKey x = e.1 := by
  induction cs with
  | nil => intro gs h; simpa using h
  | cons c rest ih =>
    intro gs h
    simp only [List.foldl_cons]
    exact ih _ (buckets_entry_key_add cap gs c h)

lemma bucketsLookup_eq_nil_of_not_mem
    (gs : List ((String × Option String) × List RetrievedChunk))
    (k : String × Option String) (h : k ∉ gs.map Prod.fst) :
    bucketsLookup gs k = [] := by
  induction gs with
  | nil => rfl
  | cons e rest ih =>
    obtain ⟨k1, g⟩ := e
    simp only [List.map_cons, List.mem_cons] at h
    push_neg at h
    rw [show bucketsLookup ((k1, g) :: rest) k =
      if k1 = k then g else bucketsLookup rest k from rfl]
    rw [if_neg (fun hc : k1 = k => h.1 hc.symm)]
    exact ih h.2

end RetrievalPostprocess

namespace RetrievalPostprocess

lemma join_filter_key
    (gs : List ((String × Option String) × List RetrievedChunk))
    (hnd : (gs.map Prod.fst).Nodup)
    (hek : ∀ e ∈ gs, ∀ x ∈ e.2, sourcePageKey x = e.1)
    (k : String × Option String) :
    ((gs.map Prod.snd).join).filter (fun c => sourcePageKey c == k) =
      bucketsLookup gs k := by
  induction gs with
  | nil => simp [bucketsLookup]
  | cons e rest ih =>
    obtain ⟨k1, g⟩ := e
    simp only [List.map_cons, List.nodup_cons] at hnd
    simp only [List.map_cons, List.join_cons, List.filter_append]
    have hg : ∀ x ∈ g, sourcePageKey x = k1 :=
      fun x hx => hek (k1, g) (List.mem_cons_self _ _) x hx
    have hrest := ih hnd.2 (fun e2 he2 => hek e2 (List.mem_cons_of_mem _ he2))
    rw [show bucketsLookup ((k1, g) :: rest) k =
      if k1 = k then g else bucketsLookup rest k from rfl]
    by_cases hk : k1 = k
    · subst hk
      rw [if_pos rfl]
      have h1 : g.filter (fun c => sourcePageKey c == k1) = g := by
        apply List.filter_eq_self.mpr
        intro a ha
        simp [hg a ha]
      have h2 : bucketsLookup rest k1 = [] :=
        bucketsLookup_eq_nil_of_not_mem rest k1 hnd.1
      rw [h1, hrest, h2, List.append_nil]
    · rw [if_neg hk]
      have h1 : g.filter (fun c => sourcePageKey c == k) = [] := by
        apply List.filter_eq_nil.mpr
        intro a ha
        simp [hg a ha, hk]
      rw [h1, hrest, List.nil_append]

lemma buckets_lookup_eq (cap : Nat) (cs : List RetrievedChunk)
    (k : String × Option String) :
    bucketsLookup (cs.foldl (addToBuckets cap) []) k =
      (pySort (cs.filter (fun c => sourcePageKey c == k))).take cap := by
  rw [buckets_fold_lookup, bucketsLookup_nil, bucket_fold]

end RetrievalPostprocess

namespace RetrievalPostprocess

lemma thresholded_none (l : List RetrievedChunk) : thresholded l none = l := rfl

lemma thresholded_sublist (l : List RetrievedChunk) (m : Option ℚ) :
    (thresholded l m).Sublist l := by
  cases m with
  | none => exact List.Sublist.refl l
  | some t => exact List.filter_sublist l

lemma postprocess_eq (l : List RetrievedChunk) (m : Option ℚ) (cap : Nat)
    (hl : l ≠ []) :
    postprocess l m cap =
      pySort ((((thresholded l m).foldl (addToBuckets cap) []).map Prod.snd).join) := by
  unfold postprocess
  rw [if_neg hl]

lemma postprocess_filter_key (l : List RetrievedChunk) (m : Option ℚ) (cap : Nat)
    (k : String × Option String) :
    (postprocess l m cap).filter (fun c => sourcePageKey c == k) =
      (pySort ((thresholded l m).filter (fun c => sourcePageKey c == k))).take cap := by
  by_cases hl : l = []
  · subst hl
    cases m <;> simp [postprocess, thresholded, pySort]
  · rw [postprocess_eq l m cap hl]
    have hnd := buckets_fold_keys_nodup cap (thresholded l m) [] (by simp)
    have hek := buckets_fold_entry_key cap (thresholded l m) [] (by simp)
    rw [pySort_filter, join_filter_key _ hnd hek k, buckets_lookup_eq]
    apply sorted_pySort_id
    exact List.Pairwise.sublist (List.take_sublist _ _) (pySort_sorted _)

lemma mem_postprocess {c : RetrievedChunk} {l : List RetrievedChunk} {m : Option ℚ}
    {cap : Nat} (h : c ∈ postprocess l m cap) : c ∈ thresholded l m := by
  have h2 : c ∈ (postprocess l m cap).filter
      (fun x => sourcePageKey x == sourcePageKey c) :=
    List.mem_filter.mpr ⟨h, by simp⟩
  rw [postprocess_filter_key] at h2
  exact List.mem_of_mem_filter (mem_pySort.mp ((List.take_sublist _ _).mem h2))

lemma mem_thresholded_le {c : RetrievedChunk} {l : List RetrievedChunk} {t : ℚ}
    (h : c ∈ thresholded l (some t)) : chunkDistance c ≤ (t : WithTop ℚ) := by
  unfold thresholded at h
  simpa using List.of_mem_filter h

lemma postprocess_sorted (l : List RetrievedChunk) (m : Option ℚ) (cap : Nat) :
    (postprocess l m cap).Sorted distLE := by
  by_cases hl : l = []
  · subst hl
    simp [postprocess]
  · rw [postprocess_eq l m cap hl]
    exact pySort_sorted _

lemma sorted_of_const_dist {L : List RetrievedChunk} {d : WithTop ℚ}
    (h : ∀ x ∈ L, chunkDistance x = d) : L.Sorted distLE := by
  induction L with
  | nil => simp
  | cons a t ih =>
    rw [List.sorted_cons]
    refine ⟨?_, ih (fun x hx => h x (List.mem_cons_of_mem _ hx))⟩
    intro b hb
    have h1 := h a (List.mem_cons_self _ _)
    have h2 := h b (List.mem_cons_of_mem _ hb)
    unfold distLE
    rw [h1, h2]

end RetrievalPostprocess

/-- **C6 (counterexample).** The claim says ties are broken by original input
order.  For input `[A(k1, 5), B(k2, 1), C(k1, 1)]` every chunk survives (no
threshold, both groups within the cap), but the output is `[C, B, A]`: the
equal-distance chunks `B` (input position 2) and `C` (input position 3) come
out in the order `C, B`, because the final sort is stable over the
*group-flattened* list (group `k1` first), not over the input. -/
theorem c6_postprocess_counterexample :
    RetrievalPostprocess.postprocess
      [⟨"A", some "k1", some "1", none, "a", some 5⟩,
       ⟨"B", some "k2", some "1", none, "b", some 1⟩,
       ⟨"C", some "k1", some "1", none, "c", some 1⟩] none 2 =
      [⟨"C", some "k1", some "1", none, "c", some 1⟩,
       ⟨"B", some "k2", some "1", none, "b", some 1⟩,
       ⟨"A", some "k1", some "1", none, "a", some 5⟩] ∧
    RetrievalPostprocess.chunkDistance ⟨"B", some "k2", some "1", none, "b", some 1⟩ =
      RetrievalPostprocess.chunkDistance ⟨"C", some "k1", some "1", none, "c", some 1⟩ ∧
    (RetrievalPostprocess.postprocess
      [⟨"A", some "k1", some "1", none, "a", some 5⟩,
       ⟨"B", some "k2", some "1", none, "b", some 1⟩,
       ⟨"C", some "k1", some "1", none, "c", some 1⟩] none 2).filter
        (fun c => RetrievalPostprocess.chunkDistance c == ((1 : ℚ) : WithTop ℚ)) =
      [⟨"C", some "k1", some "1", none, "c", some 1⟩,
       ⟨"B", some "k2", some "1", none, "b", some 1⟩] ∧
    ([⟨"A", some "k1", some "1", none, "a", some 5⟩,
      ⟨"B", some "k2", some "1", none, "b", some 1⟩,
      ⟨"C", some "k1", some "1", none, "c", some 1⟩] :
        List RetrievedChunk).filter
        (fun c => RetrievalPostprocess.chunkDistance c == ((1 : ℚ) : WithTop ℚ)) =
      [⟨"B", some "k2", some "1", none, "b", some 1⟩,
       ⟨"C", some "k1", some "1", none, "c", some 1⟩] := by
  refine ⟨by decide, by decide, by decide, by decide⟩

/-- **C6 (amended).** `postprocess` (1) drops every chunk whose distance
exceeds a finite threshold, (2) so a chunk with unknown distance (`⊤`) never
survives a finite threshold, (3) returns a list sorted ascending by distance
(unknown distances are maximal and therefore sort last when no threshold is
given), (4) restricted to any `(source, page)` key the output is exactly the
first `max_per_page` chunks of the stably sorted group, (5) for a group of at
least 3 chunks with pairwise distinct distances and cap 2, exactly the 2
lowest-distance group members survive, and (6) equal-distance chunks of the
*same* group keep their original input order — but across different groups
equal-distance chunks follow the group-flattening order, which can invert the
input order (see the counterexample). -/
theorem c6_postprocess_amended :
    (∀ (l : List RetrievedChunk) (t : ℚ) (cap : Nat) (c : RetrievedChunk),
        c ∈ RetrievalPostprocess.postprocess l (some t) cap →
          RetrievalPostprocess.chunkDistance c ≤ (t : WithTop ℚ)) ∧
    (∀ (l : List RetrievedChunk) (t : ℚ) (cap : Nat) (c : RetrievedChunk),
        c.distance = none → c ∉ RetrievalPostprocess.postprocess l (some t) cap) ∧
    (∀ (l : List RetrievedChunk) (m : Option ℚ) (cap : Nat),
        (RetrievalPostprocess.postprocess l m cap).Sorted RetrievalPostprocess.distLE) ∧
    (∀ (l : List RetrievedChunk) (m : Option ℚ) (cap : Nat) (k : String × Option String),
        (RetrievalPostprocess.postprocess l m cap).filter
            (fun c => RetrievalPostprocess.sourcePageKey c == k) =
          (RetrievalPostprocess.pySort ((RetrievalPostprocess.thresholded l m).filter
            (fun c => RetrievalPostprocess.sourcePageKey c == k))).take cap) ∧
    (∀ (l : List RetrievedChunk) (k : String × Option String),
        (l.filter (fun c => RetrievalPostprocess.sourcePageKey c == k)).Pairwise
          (fun a b => RetrievalPostprocess.chunkDistance a ≠
            RetrievalPostprocess.chunkDistance b) →
        3 ≤ (l.filter (fun c => RetrievalPostprocess.sourcePageKey c == k)).length →
          ((RetrievalPostprocess.postprocess l none 2).filter
              (fun c => RetrievalPostprocess.sourcePageKey c == k)).length = 2 ∧
          (∀ x ∈ (RetrievalPostprocess.postprocess l none 2).filter
              (fun c => RetrievalPostprocess.sourcePageKey c == k),
           ∀ y ∈ l.filter (fun c => RetrievalPostprocess.sourcePageKey c == k),
            y ∉ (RetrievalPostprocess.postprocess l none 2).filter
              (fun c => RetrievalPostprocess.sourcePageKey c == k) →
              RetrievalPostprocess.chunkDistance x <
                RetrievalPostprocess.chunkDistance y)) ∧
    (∀ (l : List RetrievedChunk) (m : Option ℚ) (cap : Nat)
        (k : String × Option String) (d : WithTop ℚ),
        (((RetrievalPostprocess.postprocess l m cap).filter
            (fun c => RetrievalPostprocess.sourcePageKey c == k)).filter
            (fun c => RetrievalPostprocess.chunkDistance c == d)).Sublist
          (((l.filter (fun c => RetrievalPostprocess.sourcePageKey c == k)).filter
            (fun c => RetrievalPostprocess.chunkDistance c == d)))) := by
  refine ⟨?_, ?_, ?_, ?_, ?_, ?_⟩
  · intro l t cap c h
    exact RetrievalPostprocess.mem_thresholded_le (RetrievalPostprocess.mem_postprocess h)
  · intro l t cap c hdist hmem
    have h2 := RetrievalPostprocess.mem_thresholded_le
      (RetrievalPostprocess.mem_postprocess hmem)
    rw [show RetrievalPostprocess.chunkDistance c = ⊤ from by
      simp [RetrievalPostprocess.chunkDistance, hdist]] at h2
    exact WithTop.coe_ne_top (top_le_iff.mp h2)
  · intro l m cap
    exact RetrievalPostprocess.postprocess_sorted l m cap
  · intro l m cap k
    exact RetrievalPostprocess.postprocess_filter_key l m cap k
  · intro l k hne h3
    have hkey := RetrievalPostprocess.postprocess_filter_key l none 2 k
    rw [RetrievalPostprocess.thresholded_none] at hkey
    constructor
    · rw [hkey, List.length_take]
      have hlen := (RetrievalPostprocess.pySort_perm
        (l.filter (fun c => RetrievalPostprocess.sourcePageKey c == k))).length_eq
      omega
    · intro x hx y hyg hynot
      rw [hkey] at hx hynot
      have hyS : y ∈ RetrievalPostprocess.pySort
          (l.filter (fun c => RetrievalPostprocess.sourcePageKey c == k)) :=
        RetrievalPostprocess.mem_pySort.mpr hyg
      have hsplit := List.take_append_drop 2 (RetrievalPostprocess.pySort
        (l.filter (fun c => RetrievalPostprocess.sourcePageKey c == k)))
      have hyd : y ∈ (RetrievalPostprocess.pySort
          (l.filter (fun c => RetrievalPostprocess.sourcePageKey c == k))).drop 2 := by
        rcases List.mem_append.mp (by rw [hsplit]; exact hyS) with h | h
        · exact absurd h hynot
        · exact h
      have hsorted := RetrievalPostprocess.pySort_sorted
        (l.filter (fun c => RetrievalPostprocess.sourcePageKey c == k))
      have hpair : (RetrievalPostprocess.pySort
          (l.filter (fun c => RetrievalPostprocess.sourcePageKey c == k))).Pairwise
            (fun a b => RetrievalPostprocess.chunkDistance a ≠
              RetrievalPostprocess.chunkDistance b) :=
        ((RetrievalPostprocess.pySort_perm _).pairwise_iff
          (by intro a b h; exact h.symm)).mpr hne
      rw [← hsplit] at hsorted hpair
      have hle := (List.pairwise_append.mp hsorted).2.2 x hx y hyd
      have hneq := (List.pairwise_append.mp hpair).2.2 x hx y hyd
      exact lt_of_le_of_ne hle hneq
  · intro l m cap k d
    rw [RetrievalPostprocess.postprocess_filter_key]
    have s1 : (((RetrievalPostprocess.pySort ((RetrievalPostprocess.thresholded l m).filter
        (fun c => RetrievalPostprocess.sourcePageKey c == k))).take cap).filter
        (fun c => RetrievalPostprocess.chunkDistance c == d)).Sublist
        ((RetrievalPostprocess.pySort ((RetrievalPostprocess.thresholded l m).filter
        (fun c => RetrievalPostprocess.sourcePageKey c == k))).filter
        (fun c => RetrievalPostprocess.chunkDistance c == d)) :=
      (List.take_sublist _ _).filter _
    have s2 := RetrievalPostprocess.pySort_filter
      (fun c => RetrievalPostprocess.chunkDistance c == d)
      ((RetrievalPostprocess.thresholded l m).filter
        (fun c => RetrievalPostprocess.sourcePageKey c == k))
    have s3 : RetrievalPostprocess.pySort
        (((RetrievalPostprocess.thresholded l m).filter
          (fun c => RetrievalPostprocess.sourcePageKey c == k)).filter
          (fun c => RetrievalPostprocess.chunkDistance c == d)) =
        ((RetrievalPostprocess.thresholded l m).filter
          (fun c => RetrievalPostprocess.sourcePageKey c == k)).filter
          (fun c => RetrievalPostprocess.chunkDistance c == d) := by
      apply RetrievalPostprocess.sorted_pySort_id
      apply RetrievalPostprocess.sorted_of_const_dist
      intro x hx
      simpa using List.of_mem_filter hx
    have s123 : (((RetrievalPostprocess.pySort
        ((RetrievalPostprocess.thresholded l m).filter
          (fun c => RetrievalPostprocess.sourcePageKey c == k))).take cap).filter
          (fun c => RetrievalPostprocess.chunkDistance c == d)).Sublist
        (((RetrievalPostprocess.thresholded l m).filter
          (fun c => RetrievalPostprocess.sourcePageKey c == k)).filter
          (fun c => RetrievalPostprocess.chunkDistance c == d)) := by
      rw [← s3, ← s2]
      exact s1
    exact s123.trans
      (((RetrievalPostprocess.thresholded_sublist l m).filter _).filter _)

/-- Witness for C6 (amended) at a concrete group of three distinct-distance
chunks on one `(source, page)` page: exactly 2 survive. -/
theorem c6_postprocess_amended_witness :
    ((RetrievalPostprocess.postprocess
      [⟨"c1", some "doc.pdf", some "1", none, "x", some 8⟩,
       ⟨"c2", some "doc.pdf", some "1", none, "x", some 3⟩,
       ⟨"c3", some "doc.pdf", some "1", none, "x", some 5⟩] none 2).filter
        (fun c => RetrievalPostprocess.sourcePageKey c == ("doc.pdf", some "1"))).length = 2 :=
  (c6_postprocess_amended.2.2.2.2.1
    [⟨"c1", some "doc.pdf", some "1", none, "x", some 8⟩,
     ⟨"c2", some "doc.pdf", some "1", none, "x", some 3⟩,
     ⟨"c3", some "doc.pdf", some "1", none, "x", some 5⟩]
    ("doc.pdf", some "1") (by decide) (by decide)).1

namespace RetrievalPostprocess

lemma perm_of_filter_key_perm {u v : List RetrievedChunk}
    (h : ∀ k, List.Perm (u.filter (fun c => sourcePageKey c == k))
      (v.filter (fun c => sourcePageKey c == k))) :
    List.Perm u v := by
  rw [List.perm_iff_count]
  intro a
  have h1 : List.count a (u.filter (fun c => sourcePageKey c == sourcePageKey a)) =
      List.count a u := List.count_filter (by simp)
  have h2 : List.count a (v.filter (fun c => sourcePageKey c == sourcePageKey a)) =
      List.count a v := List.count_filter (by simp)
  rw [← h1, ← h2]
  exact (h (sourcePageKey a)).count_eq a

lemma postprocess_perm_of_cap (l : List RetrievedChunk) (m : Option ℚ) (cap : Nat)
    (hcap : ∀ k, ((thresholded l m).filter
      (fun c => sourcePageKey c == k)).length ≤ cap) :
    List.Perm (postprocess l m cap) (thresholded l m) := by
  apply perm_of_filter_key_perm
  intro k
  rw [postprocess_filter_key]
  rw [List.take_of_length_le (by rw [(pySort_perm _).length_eq]; exact hcap k)]
  exact pySort_perm _

lemma eq_of_perm_sorted_nodupDist :
    ∀ {u v : List RetrievedChunk}, List.Perm u v → u.Sorted distLE →
      v.Sorted distLE →
      u.Pairwise (fun a b => chunkDistance a ≠ chunkDistance b) → u = v := by
  intro u
  induction u with
  | nil =>
    intro v hp _ _ _
    exact (hp.symm.eq_nil).symm
  | cons a u2 ih =>
    intro v hp hu hv hnd
    cases v with
    | nil => exact absurd hp.eq_nil (by simp)
    | cons b v2 =>
      by_cases hab : a = b
      · subst hab
        rw [List.sorted_cons] at hu hv
        rw [List.pairwise_cons] at hnd
        rw [ih hp.cons_inv hu.2 hv.2 hnd.2]
      · exfalso
        have hbu : b ∈ a :: u2 := hp.symm.subset (List.mem_cons_self _ _)
        have hav : a ∈ b :: v2 := hp.subset (List.mem_cons_self _ _)
        have hbu2 : b ∈ u2 := by
          rcases List.mem_cons.mp hbu with h | h
          · exact absurd h.symm hab
          · exact h
        have hav2 : a ∈ v2 := by
          rcases List.mem_cons.mp hav with h | h
          · exact absurd h hab
          · exact h
        have h1 : chunkDistance a ≤ chunkDistance b :=
          (List.sorted_cons.mp hu).1 b hbu2
        have h2 : chunkDistance b ≤ chunkDistance a :=
          (List.sorted_cons.mp hv).1 a hav2
        exact (List.pairwise_cons.mp hnd).1 b hbu2 (le_antisymm h1 h2)

lemma postprocess_fixed {z : List RetrievedChunk} {cap : Nat}
    (hs : z.Sorted distLE)
    (hnd : z.Pairwise (fun a b => chunkDistance a ≠ chunkDistance b))
    (hcap : ∀ k, (z.filter (fun c => sourcePageKey c == k)).length ≤ cap) :
    postprocess z none cap = z := by
  have hperm : List.Perm (postprocess z none cap) z := by
    have h := postprocess_perm_of_cap z none cap
      (by intro k; rw [thresholded_none]; exact hcap k)
    rwa [thresholded_none] at h
  exact eq_of_perm_sorted_nodupDist hperm (postprocess_sorted z none cap) hs
    ((hperm.pairwise_iff (by intro a b h; exact h.symm)).mpr hnd)

lemma count_postprocess_le (a : RetrievedChunk) (l : List RetrievedChunk)
    (m : Option ℚ) (cap : Nat) :
    List.count a (postprocess l m cap) ≤ List.count a l := by
  have h1 : List.count a ((postprocess l m cap).filter
      (fun c => sourcePageKey c == sourcePageKey a)) =
      List.count a (postprocess l m cap) := List.count_filter (by simp)
  rw [← h1, postprocess_filter_key]
  calc List.count a ((pySort ((thresholded l m).filter
        (fun c => sourcePageKey c == sourcePageKey a))).take cap)
      ≤ List.count a (pySort ((thresholded l m).filter
        (fun c => sourcePageKey c == sourcePageKey a))) :=
        (List.take_sublist _ _).count_le a
    _ = List.count a ((thresholded l m).filter
        (fun c => sourcePageKey c == sourcePageKey a)) :=
        (pySort_perm _).count_eq a
    _ ≤ List.count a (thresholded l m) := (List.filter_sublist _).count_le a
    _ ≤ List.count a l := (thresholded_sublist l m).count_le a

end RetrievalPostprocess

/-- **C9 (counterexample).** `postprocess` with no threshold is not idempotent.
For `X = [x(k1, 1), w(k2, 0), y(k2, 1)]` the first pass groups `k1` before
`k2` (input order of first occurrence) and returns `[w, x, y]`; re-running it
groups `k2` before `k1` (because `w` now comes first), flattens to
`[w, y, x]`, and the stable sort leaves the tied chunks `x`, `y` in that new
order, so the second pass returns `[w, y, x] ≠ [w, x, y]`. -/
theorem c9_postprocess_idempotent_counterexample :
    RetrievalPostprocess.postprocess
      [⟨"x", some "k1", some "1", none, "x", some 1⟩,
       ⟨"w", some "k2", some "1", none, "w", some 0⟩,
       ⟨"y", some "k2", some "1", none, "y", some 1⟩] none 2 =
      [⟨"w", some "k2", some "1", none, "w", some 0⟩,
       ⟨"x", some "k1", some "1", none, "x", some 1⟩,
       ⟨"y", some "k2", some "1", none, "y", some 1⟩] ∧
    RetrievalPostprocess.postprocess (RetrievalPostprocess.postprocess
      [⟨"x", some "k1", some "1", none, "x", some 1⟩,
       ⟨"w", some "k2", some "1", none, "w", some 0⟩,
       ⟨"y", some "k2", some "1", none, "y", some 1⟩] none 2) none 2 =
      [⟨"w", some "k2", some "1", none, "w", some 0⟩,
       ⟨"y", some "k2", some "1", none, "y", some 1⟩,
       ⟨"x", some "k1", some "1", none, "x", some 1⟩] ∧
    RetrievalPostprocess.postprocess (RetrievalPostprocess.postprocess
      [⟨"x", some "k1", some "1", none, "x", some 1⟩,
       ⟨"w", some "k2", some "1", none, "w", some 0⟩,
       ⟨"y", some "k2", some "1", none, "y", some 1⟩] none 2) none 2 ≠
    RetrievalPostprocess.postprocess
      [⟨"x", some "k1", some "1", none, "x", some 1⟩,
       ⟨"w", some "k2", some "1", none, "w", some 0⟩,
       ⟨"y", some "k2", some "1", none, "y", some 1⟩] none 2 := by
  refine ⟨by decide, by decide, by decide⟩

/-- **C9 (amended).** `postprocess` with no threshold is idempotent on every
chunk list whose distances are pairwise distinct (in particular at most one
chunk has a missing distance).  Non-idempotence requires equal-distance
chunks in different `(source, page)` groups, whose relative order the
group-flattening step can change between passes (see the counterexample). -/
theorem c9_postprocess_idempotent_amended (l : List RetrievedChunk) (cap : Nat)
    (hl : l.Pairwise (fun a b => RetrievalPostprocess.chunkDistance a ≠
      RetrievalPostprocess.chunkDistance b)) :
    RetrievalPostprocess.postprocess
      (RetrievalPostprocess.postprocess l none cap) none cap =
      RetrievalPostprocess.postprocess l none cap := by
  have hlnd : l.Nodup := hl.imp (fun h => by intro heq; exact h (by rw [heq]))
  have hznd : (RetrievalPostprocess.postprocess l none cap).Nodup := by
    rw [List.nodup_iff_count_le_one]
    intro a
    exact le_trans (RetrievalPostprocess.count_postprocess_le a l none cap)
      (List.nodup_iff_count_le_one.mp hlnd a)
  have hinj : ∀ x ∈ l, ∀ y ∈ l,
      RetrievalPostprocess.chunkDistance x =
        RetrievalPostprocess.chunkDistance y → x = y := by
    intro x hx y hy hdeq
    by_contra hne
    exact hl.forall (by intro a b h; exact h.symm) hx hy hne hdeq
  have hzsub : ∀ x ∈ RetrievalPostprocess.postprocess l none cap, x ∈ l := by
    intro x hx
    have h := RetrievalPostprocess.mem_postprocess hx
    rwa [RetrievalPostprocess.thresholded_none] at h
  have hzpair : (RetrievalPostprocess.postprocess l none cap).Pairwise
      (fun a b => RetrievalPostprocess.chunkDistance a ≠
        RetrievalPostprocess.chunkDistance b) := by
    refine List.Pairwise.imp_of_mem ?_ hznd
    intro a b ha hb hne heq
    exact hne (hinj a (hzsub a ha) b (hzsub b hb) heq)
  apply RetrievalPostprocess.postprocess_fixed
    (RetrievalPostprocess.postprocess_sorted l none cap) hzpair
  intro k
  rw [RetrievalPostprocess.postprocess_filter_key,
    RetrievalPostprocess.thresholded_none]
  exact List.length_take_le _ _

/-- Witness for C9 (amended) at a concrete two-chunk list with distinct
distances. -/
theorem c9_postprocess_idempotent_amended_witness :
    RetrievalPostprocess.postprocess (RetrievalPostprocess.postprocess
      [⟨"a", some "d.pdf", some "1", none, "t", some 2⟩,
       ⟨"b", some "d.pdf", some "2", none, "u", some 1⟩] none 2) none 2 =
    RetrievalPostprocess.postprocess
      [⟨"a", some "d.pdf", some "1", none, "t", some 2⟩,
       ⟨"b", some "d.pdf", some "2", none, "u", some 1⟩] none 2 :=
  c9_postprocess_idempotent_amended
    [⟨"a", some "d.pdf", some "1", none, "t", some 2⟩,
     ⟨"b", some "d.pdf", some "2", none, "u", some 1⟩] 2 (by decide)

namespace DocumentRegistry

lemma regLookup_regSet_self (reg : Registry) (sid : String) (r : DocumentRecord) :
    regLookup (regSet reg sid r) sid = some r := by
  induction reg with
  | nil => simp [regSet, regLookup]
  | cons e rest ih =>
    obtain ⟨k, r1⟩ := e
    by_cases h : k = sid <;> simp [regSet, regLookup, h, ih]

lemma regLookup_regSet_ne (reg : Registry) (k sid : String) (r : DocumentRecord)
    (h : k ≠ sid) : regLookup (regSet reg k r) sid = regLookup reg sid := by
  induction reg with
  | nil => simp [regSet, regLookup, h]
  | cons e rest ih =>
    obtain ⟨k1, r1⟩ := e
    by_cases h1 : k1 = k
    · subst h1
      simp [regSet, regLookup, h]
    · rw [show regSet ((k1, r1) :: rest) k r = (k1, r1) :: regSet rest k r from by
        simp [regSet, h1]]
      rw [show regLookup ((k1, r1) :: regSet rest k r) sid =
        if k1 = sid then some r1 else regLookup (regSet rest k r) sid from rfl]
      rw [show regLookup ((k1, r1) :: rest) sid =
        if k1 = sid then some r1 else regLookup rest sid from rfl]
      by_cases h2 : k1 = sid
      · rw [if_pos h2, if_pos h2]
      · rw [if_neg h2, if_neg h2, ih]

lemma regLookup_not_mem (reg : Registry) (sid : String)
    (h : sid ∉ reg.map Prod.fst) : regLookup reg sid = none := by
  induction reg with
  | nil => rfl
  | cons e rest ih =>
    obtain ⟨k, r1⟩ := e
    simp only [List.map_cons, List.mem_cons] at h
    push_neg at h
    rw [show regLookup ((k, r1) :: rest) sid =
      if k = sid then some r1 else regLookup rest sid from rfl,
      if_neg (fun hc : k = sid => h.1 hc.symm)]
    exact ih h.2

lemma regLookup_regDel_self (reg : Registry) (sid : String)
    (hnd : (reg.map Prod.fst).Nodup) : regLookup (regDel reg sid) sid = none := by
  induction reg with
  | nil => rfl
  | cons e rest ih =>
    obtain ⟨k, r1⟩ := e
    simp only [List.map_cons, List.nodup_cons] at hnd
    by_cases h : k = sid
    · subst h
      rw [show regDel ((k, r1) :: rest) k = rest from by simp [regDel]]
      exact regLookup_not_mem rest k hnd.1
    · rw [show regDel ((k, r1) :: rest) sid = (k, r1) :: regDel rest sid from by
        simp [regDel, h]]
      rw [show regLookup ((k, r1) :: regDel rest sid) sid =
        if k = sid then some r1 else regLookup (regDel rest sid) sid from rfl,
        if_neg h]
      exact ih hnd.2

lemma regLookup_unregister_self (reg : Registry) (sid : String)
    (hnd : (reg.map Prod.fst).Nodup) :
    regLookup (unregister reg sid).1 sid = none := by
  unfold unregister
  cases h : regLookup reg sid with
  | none => simpa using h
  | some r => simpa using regLookup_regDel_self reg sid hnd

lemma versionOf_register_fresh (reg : Registry) (sid ch : String)
    (ids : List String) (n : Nat) (now : String)
    (h : regLookup reg sid = none) :
    SyncService.versionOf (register reg sid ch ids n now) sid = some 1 := by
  unfold SyncService.versionOf register
  rw [h, regLookup_regSet_self]
  rfl

lemma versionOf_register_existing (reg : Registry) (sid ch : String)
    (ids : List String) (n : Nat) (now : String) (R : DocumentRecord)
    (h : regLookup reg sid = some R) :
    SyncService.versionOf (register reg sid ch ids n now) sid =
      some (R.version + 1) := by
  unfold SyncService.versionOf register
  rw [h, regLookup_regSet_self]
  rfl

lemma versionOf_register_ne (reg : Registry) (k sid ch : String)
    (ids : List String) (n : Nat) (now : String) (h : k ≠ sid) :
    SyncService.versionOf (register reg k ch ids n now) sid =
      SyncService.versionOf reg sid := by
  unfold SyncService.versionOf register
  rw [regLookup_regSet_ne _ _ _ _ h]

end DocumentRegistry

namespace SyncService

lemma process_document_reg_eq (split : String → List String) (now : String)
    (reg : DocumentRegistry.Registry) (pdf : PdfFile) :
    (process_document split now reg pdf).reg =
      if DocumentRegistry.get_status reg pdf.name pdf.content_hash =
          DocumentRegistry.DocumentStatus.UNCHANGED then reg
      else if Ingestion.chunk_pages split pdf.pages = [] then reg
      else DocumentRegistry.register reg pdf.name pdf.content_hash
        ((Ingestion.chunk_pages split pdf.pages).map Ingestion.Chunk.id)
        pdf.pages.length now := by
  unfold process_document
  by_cases h1 : DocumentRegistry.get_status reg pdf.name pdf.content_hash =
      DocumentRegistry.DocumentStatus.UNCHANGED
  · simp [h1]
  · by_cases h2 : Ingestion.chunk_pages split pdf.pages = []
    · simp [h1, h2]
    · by_cases h3 : DocumentRegistry.get_status reg pdf.name pdf.content_hash =
          DocumentRegistry.DocumentStatus.NEW
      · simp [h1, h2, h3]
      · simp [h1, h2, h3]

lemma process_document_events_eq (split : String → List String) (now : String)
    (reg : DocumentRegistry.Registry) (pdf : PdfFile) :
    (process_document split now reg pdf).events =
      if DocumentRegistry.get_status reg pdf.name pdf.content_hash =
          DocumentRegistry.DocumentStatus.UNCHANGED then []
      else
        (if DocumentRegistry.get_status reg pdf.name pdf.content_hash =
            DocumentRegistry.DocumentStatus.UPDATED then
          if DocumentRegistry.get_chunk_ids reg pdf.name ≠ [] then
            [SyncEvent.deleteIds (DocumentRegistry.get_chunk_ids reg pdf.name)]
          else []
        else []) ++
        (if Ingestion.chunk_pages split pdf.pages = [] then []
         else [SyncEvent.addDocs
            ((Ingestion.chunk_pages split pdf.pages).map Ingestion.Chunk.id)]) := by
  unfold process_document
  by_cases h1 : DocumentRegistry.get_status reg pdf.name pdf.content_hash =
      DocumentRegistry.DocumentStatus.UNCHANGED
  · simp [h1]
  · by_cases h2 : Ingestion.chunk_pages split pdf.pages = []
    · simp [h1, h2]
    · by_cases h3 : DocumentRegistry.get_status reg pdf.name pdf.content_hash =
          DocumentRegistry.DocumentStatus.NEW
      · simp [h1, h2, h3]
      · simp [h1, h2, h3]

lemma versionOf_process_ge (split : String → List String) (now : String)
    (reg : DocumentRegistry.Registry) (pdf : PdfFile) (sid : String) (v : Nat)
    (hv : versionOf reg sid = some v) :
    ∃ v2, v ≤ v2 ∧
      versionOf (process_document split now reg pdf).reg sid = some v2 := by
  rw [process_document_reg_eq]
  by_cases h1 : DocumentRegistry.get_status reg pdf.name pdf.content_hash =
      DocumentRegistry.DocumentStatus.UNCHANGED
  · rw [if_pos h1]
    exact ⟨v, le_refl v, hv⟩
  · rw [if_neg h1]
    by_cases h2 : Ingestion.chunk_pages split pdf.pages = []
    · rw [if_pos h2]
      exact ⟨v, le_refl v, hv⟩
    · rw [if_neg h2]
      by_cases hname : pdf.name = sid
      · subst hname
        obtain ⟨R, hR⟩ : ∃ R, DocumentRegistry.regLookup reg pdf.name = some R := by
          unfold versionOf at hv
          cases h : DocumentRegistry.regLookup reg pdf.name with
          | none => rw [h] at hv; simp at hv
          | some R => exact ⟨R, rfl⟩
        have hvR : R.version = v := by
          unfold versionOf at hv
          rw [hR] at hv
          simpa using hv
        rw [DocumentRegistry.versionOf_register_existing _ _ _ _ _ _ R hR, hvR]
        exact ⟨v + 1, Nat.le_succ v, rfl⟩
      · rw [DocumentRegistry.versionOf_register_ne _ _ _ _ _ _ _ hname]
        exact ⟨v, le_refl v, hv⟩

lemma versionOf_syncRun_ge (split : String → List String) (now : String)
    (sid : String) :
    ∀ (files : List PdfFile) (reg : DocumentRegistry.Registry) (v : Nat),
      versionOf reg sid = some v →
      ∃ v2, v ≤ v2 ∧ versionOf (syncRun split now reg files) sid = some v2 := by
  intro files
  induction files with
  | nil => intro reg v hv; exact ⟨v, le_refl v, hv⟩
  | cons f rest ih =>
    intro reg v hv
    obtain ⟨v1, hle1, hv1⟩ := versionOf_process_ge split now reg f sid v hv
    obtain ⟨v2, hle2, hv2⟩ := ih _ v1 hv1
    exact ⟨v2, le_trans hle1 hle2, hv2⟩

end SyncService

namespace Ingestion

lemma emitChunks_ids (source : String) (page_num : Nat) :
    ∀ (counter : Nat) (texts : List String),
      (emitChunks source page_num counter texts).map Chunk.id =
        idsRange source page_num counter texts.length := by
  intro counter texts
  induction texts generalizing counter with
  | nil => rfl
  | cons t ts ih => simp [emitChunks, idsRange, ih]

lemma chunk_pages_from_ids (split : String → List String) :
    ∀ (counter : Nat) (pages : List Page),
      (chunk_pages_from split counter pages).map Chunk.id =
        idsFrom counter
          (pages.map (fun p => (p.source, p.page_num, (split p.text).length))) := by
  intro counter pages
  induction pages generalizing counter with
  | nil => rfl
  | cons p rest ih => simp [chunk_pages_from, idsFrom, emitChunks_ids, ih]

lemma chunk_pages_ids (split : String → List String) (pages : List Page) :
    (chunk_pages split pages).map Chunk.id =
      idsFrom 0
        (pages.map (fun p => (p.source, p.page_num, (split p.text).length))) :=
  chunk_pages_from_ids split 0 pages

end Ingestion

/-- **C3 (counterexample).** `_save` is an in-place truncate-and-rewrite, not
write-then-replace: its disk trace passes through the empty file (state after
`open(path, "w")` truncates), which differs from both the old serialized
registry and the new one, so at that interruption point the on-disk registry
is NOT a fully-registered state.  The trace also differs from the atomic
write-then-replace trace the spec describes. -/
theorem c3_registry_atomic_save_counterexample :
    "" ∈ DocumentRegistry.saveTrace (DocumentRegistry.serializeRegistry [])
      [("doc.pdf", ⟨"doc.pdf", "h1", ["doc_001_0001"], 1, "T0", 1, 1⟩)] ∧
    "" ≠ DocumentRegistry.serializeRegistry [] ∧
    "" ≠ DocumentRegistry.serializeRegistry
      [("doc.pdf", ⟨"doc.pdf", "h1", ["doc_001_0001"], 1, "T0", 1, 1⟩)] ∧
    DocumentRegistry.saveTrace (DocumentRegistry.serializeRegistry [])
      [("doc.pdf", ⟨"doc.pdf", "h1", ["doc_001_0001"], 1, "T0", 1, 1⟩)] ≠
    DocumentRegistry.saveTraceSpecAtomic (DocumentRegistry.serializeRegistry [])
      [("doc.pdf", ⟨"doc.pdf", "h1", ["doc_001_0001"], 1, "T0", 1, 1⟩)] := by
  refine ⟨by decide, by decide, by decide, by decide⟩

/-- **C3 (amended).** Every mutating registry operation persists the entire
registry by truncating the registry file in place and rewriting it
(`open(path, "w")` then `json.dump`): the on-disk trace is
`[old, "", serialized new registry]`.  No serialized registry is the empty
string, so the intermediate truncated state corresponds to no
fully-registered state; only the (not implemented) write-then-replace scheme
of the spec keeps every disk state equal to the old or the new content. -/
theorem c3_registry_atomic_save_amended :
    (∀ (old : String) (reg : DocumentRegistry.Registry),
        DocumentRegistry.saveTrace old reg =
          [old, "", DocumentRegistry.serializeRegistry reg]) ∧
    (∀ reg : DocumentRegistry.Registry,
        DocumentRegistry.serializeRegistry reg ≠ "") ∧
    (∀ (old : String) (reg : DocumentRegistry.Registry),
        ∀ s ∈ DocumentRegistry.saveTraceSpecAtomic old reg,
          s = old ∨ s = DocumentRegistry.serializeRegistry reg) := by
  refine ⟨fun old reg => rfl, ?_, ?_⟩
  · intro reg h
    have h1 : 0 < (DocumentRegistry.serializeRegistry reg).length := by
      unfold DocumentRegistry.serializeRegistry
      rw [String.length_append, String.length_append]
      have h2 : ("\x7b" : String).length = 1 := rfl
      omega
    rw [h] at h1
    simp at h1
  · intro old reg s hs
    simpa [DocumentRegistry.saveTraceSpecAtomic] using hs

/-- Witness for C3 (amended) at the empty registry. -/
theorem c3_registry_atomic_save_amended_witness :
    DocumentRegistry.saveTrace "" [] =
      ["", "", DocumentRegistry.serializeRegistry []] ∧
    DocumentRegistry.serializeRegistry [] ≠ "" :=
  ⟨c3_registry_atomic_save_amended.1 "" [],
   c3_registry_atomic_save_amended.2.1 []⟩

namespace DocumentRegistry

lemma get_status_updated_of (reg : Registry) (sid ch : String)
    (R : DocumentRecord) (h1 : regLookup reg sid = some R)
    (h2 : R.content_hash ≠ ch) : get_status reg sid ch = DocumentStatus.UPDATED := by
  unfold get_status
  rw [h1]
  exact if_neg h2

end DocumentRegistry

/-- **C4 (counterexample).** Chunk ids are deterministic in the source name,
page number and running counter only - never in the text.  Updating
`doc.pdf` (hash `h1` → `h2`, one page, one chunk) re-ingests under the SAME
chunk id `doc_001_0001` it had before: the set of entry ids attached
afterward equals the previous set, refuting the claimed empty
intersection (the UPDATED status, delete-before-add order and version bump
all hold at the same input). -/
theorem c4_updated_reingest_counterexample :
    DocumentRegistry.get_status
      [("doc.pdf", ⟨"doc.pdf", "h1", ["doc_001_0001"], 1, "T0", 1, 1⟩)]
      "doc.pdf" "h2" = DocumentRegistry.DocumentStatus.UPDATED ∧
    (SyncService.process_document (fun t => [t]) "T1"
      [("doc.pdf", ⟨"doc.pdf", "h1", ["doc_001_0001"], 1, "T0", 1, 1⟩)]
      ⟨"doc.pdf", "h2", [⟨1, "fresh text", "doc.pdf"⟩]⟩).events =
      [SyncService.SyncEvent.deleteIds ["doc_001_0001"],
       SyncService.SyncEvent.addDocs ["doc_001_0001"]] ∧
    SyncService.versionOf (SyncService.process_document (fun t => [t]) "T1"
      [("doc.pdf", ⟨"doc.pdf", "h1", ["doc_001_0001"], 1, "T0", 1, 1⟩)]
      ⟨"doc.pdf", "h2", [⟨1, "fresh text", "doc.pdf"⟩]⟩).reg "doc.pdf" =
      some 2 ∧
    (Ingestion.chunk_pages (fun t => [t])
      [⟨1, "fresh text", "doc.pdf"⟩]).map Ingestion.Chunk.id =
      ["doc_001_0001"] ∧
    "doc_001_0001" ∈ (["doc_001_0001"] : List String) := by
  refine ⟨by decide, by decide, by decide, by decide, by decide⟩

/-- **C4 (amended).** For a registered document whose bytes change, the next
per-document sync step observes status UPDATED; when the old record carries
chunk ids and the new extraction yields chunks, it deletes the old entry ids
strictly before adding the new ones, and registers version old + 1.  But the
new entry ids need NOT be disjoint from the old ones: the id sequence is
fully determined by the `(source-name, page-number, chunks-per-page)`
skeleton, independent of content, so an update whose skeleton overlaps the
old one reuses the same ids (which is exactly why the delete must come
first). -/
theorem c4_updated_reingest_amended :
    (∀ (reg : DocumentRegistry.Registry) (pdf : SyncService.PdfFile)
        (R : DocumentRegistry.DocumentRecord),
        DocumentRegistry.regLookup reg pdf.name = some R →
        R.content_hash ≠ pdf.content_hash →
        DocumentRegistry.get_status reg pdf.name pdf.content_hash =
          DocumentRegistry.DocumentStatus.UPDATED) ∧
    (∀ (split : String → List String) (now : String)
        (reg : DocumentRegistry.Registry) (pdf : SyncService.PdfFile)
        (R : DocumentRegistry.DocumentRecord),
        DocumentRegistry.regLookup reg pdf.name = some R →
        R.content_hash ≠ pdf.content_hash →
        R.chunk_ids ≠ [] →
        Ingestion.chunk_pages split pdf.pages ≠ [] →
        (SyncService.process_document split now reg pdf).events =
          [SyncService.SyncEvent.deleteIds R.chunk_ids,
           SyncService.SyncEvent.addDocs
             ((Ingestion.chunk_pages split pdf.pages).map Ingestion.Chunk.id)]) ∧
    (∀ (split : String → List String) (now : String)
        (reg : DocumentRegistry.Registry) (pdf : SyncService.PdfFile)
        (R : DocumentRegistry.DocumentRecord),
        DocumentRegistry.regLookup reg pdf.name = some R →
        R.content_hash ≠ pdf.content_hash →
        Ingestion.chunk_pages split pdf.pages ≠ [] →
        SyncService.versionOf
          (SyncService.process_document split now reg pdf).reg pdf.name =
          some (R.version + 1)) ∧
    (∀ (split : String → List String) (pages : List Ingestion.Page),
        (Ingestion.chunk_pages split pages).map Ingestion.Chunk.id =
          Ingestion.idsFrom 0 (pages.map
            (fun p => (p.source, p.page_num, (split p.text).length)))) := by
  refine ⟨?_, ?_, ?_, ?_⟩
  · intro reg pdf R h1 h2
    exact DocumentRegistry.get_status_updated_of reg pdf.name pdf.content_hash R h1 h2
  · intro split now reg pdf R h1 h2 h3 h4
    rw [SyncService.process_document_events_eq]
    rw [DocumentRegistry.get_status_updated_of reg pdf.name pdf.content_hash R h1 h2]
    have hids : DocumentRegistry.get_chunk_ids reg pdf.name = R.chunk_ids := by
      unfold DocumentRegistry.get_chunk_ids
      rw [h1]
    rw [if_neg (by decide), if_pos rfl, hids, if_pos h3, if_neg h4]
    rfl
  · intro split now reg pdf R h1 h2 h4
    rw [SyncService.process_document_reg_eq]
    rw [DocumentRegistry.get_status_updated_of reg pdf.name pdf.content_hash R h1 h2]
    rw [if_neg (by decide), if_neg h4]
    exact DocumentRegistry.versionOf_register_existing _ _ _ _ _ _ R h1
  · intro split pages
    exact Ingestion.chunk_pages_ids split pages

/-- Witness for C4 (amended): the delete-before-add event order at the
counterexample's concrete input. -/
theorem c4_updated_reingest_amended_witness :
    (SyncService.process_document (fun t => [t]) "T1"
      [("doc.pdf", ⟨"doc.pdf", "h1", ["doc_001_0001"], 1, "T0", 1, 1⟩)]
      ⟨"doc.pdf", "h2", [⟨1, "fresh text", "doc.pdf"⟩]⟩).events =
      [SyncService.SyncEvent.deleteIds ["doc_001_0001"],
       SyncService.SyncEvent.addDocs
         ((Ingestion.chunk_pages (fun t => [t])
           [⟨1, "fresh text", "doc.pdf"⟩]).map Ingestion.Chunk.id)] :=
  c4_updated_reingest_amended.2.1 (fun t => [t]) "T1"
    [("doc.pdf", ⟨"doc.pdf", "h1", ["doc_001_0001"], 1, "T0", 1, 1⟩)]
    ⟨"doc.pdf", "h2", [⟨1, "fresh text", "doc.pdf"⟩]⟩
    ⟨"doc.pdf", "h1", ["doc_001_0001"], 1, "T0", 1, 1⟩
    rfl (by decide) (by decide) (by decide)

/-- **C5 (counterexample).** Versions are not monotone across
`force_reingest`.  Sync `doc.pdf` (hash `h1`) then its update (hash `h2`):
version 2.  `force_reingest("doc.pdf")` UNREGISTERS the document first, so
the subsequent `register` finds no existing record and stores version 1 -
the version drops from 2 to 1 instead of increasing to 3. -/
theorem c5_version_monotone_counterexample :
    SyncService.versionOf
      (SyncService.syncRun (fun t => [t]) "T"
        (SyncService.syncRun (fun t => [t]) "T" []
          [⟨"doc.pdf", "h1", [⟨1, "t1", "doc.pdf"⟩]⟩])
        [⟨"doc.pdf", "h2", [⟨1, "t2", "doc.pdf"⟩]⟩]) "doc.pdf" = some 2 ∧
    SyncService.versionOf
      (SyncService.force_reingest_one (fun t => [t]) "T"
        (SyncService.syncRun (fun t => [t]) "T"
          (SyncService.syncRun (fun t => [t]) "T" []
            [⟨"doc.pdf", "h1", [⟨1, "t1", "doc.pdf"⟩]⟩])
          [⟨"doc.pdf", "h2", [⟨1, "t2", "doc.pdf"⟩]⟩])
        "doc.pdf" [⟨"doc.pdf", "h2", [⟨1, "t2", "doc.pdf"⟩]⟩]) "doc.pdf" =
      some 1 := by
  refine ⟨by decide, by decide⟩

/-- **C5 (amended).** Under sync runs alone the claim holds: a first ingest
registers version 1, a successful re-ingestion of a changed document
registers exactly old version + 1, and the version of a registered source is
monotonically non-decreasing across any sync run.  `force_reingest`, however, clears
the record before re-processing, so it always re-registers at version 1,
resetting (not increasing) the version. -/
theorem c5_version_monotone_amended :
    (∀ (split : String → List String) (now : String)
        (reg : DocumentRegistry.Registry) (pdf : SyncService.PdfFile),
        DocumentRegistry.regLookup reg pdf.name = none →
        Ingestion.chunk_pages split pdf.pages ≠ [] →
        SyncService.versionOf
          (SyncService.process_document split now reg pdf).reg pdf.name =
          some 1) ∧
    (∀ (split : String → List String) (now : String)
        (reg : DocumentRegistry.Registry) (pdf : SyncService.PdfFile)
        (R : DocumentRegistry.DocumentRecord),
        DocumentRegistry.regLookup reg pdf.name = some R →
        R.content_hash ≠ pdf.content_hash →
        Ingestion.chunk_pages split pdf.pages ≠ [] →
        SyncService.versionOf
          (SyncService.process_document split now reg pdf).reg pdf.name =
          some (R.version + 1)) ∧
    (∀ (split : String → List String) (now : String) (sid : String)
        (files : List SyncService.PdfFile)
        (reg : DocumentRegistry.Registry) (v : Nat),
        SyncService.versionOf reg sid = some v →
        ∃ v2, v ≤ v2 ∧
          SyncService.versionOf (SyncService.syncRun split now reg files) sid =
            some v2) ∧
    (∀ (split : String → List String) (now : String)
        (reg : DocumentRegistry.Registry) (sid : String)
        (pdf : SyncService.PdfFile),
        (reg.map Prod.fst).Nodup →
        pdf.name = sid →
        Ingestion.chunk_pages split pdf.pages ≠ [] →
        SyncService.versionOf
          (SyncService.force_reingest_one split now reg sid [pdf]) sid =
          some 1) := by
  refine ⟨?_, ?_, ?_, ?_⟩
  · intro split now reg pdf hnone hch
    rw [SyncService.process_document_reg_eq]
    have hst : DocumentRegistry.get_status reg pdf.name pdf.content_hash =
        DocumentRegistry.DocumentStatus.NEW := by
      unfold DocumentRegistry.get_status
      rw [hnone]
    rw [hst, if_neg (by decide), if_neg hch]
    exact DocumentRegistry.versionOf_register_fresh _ _ _ _ _ _ hnone
  · intro split now reg pdf R h1 h2 h4
    rw [SyncService.process_document_reg_eq,
      DocumentRegistry.get_status_updated_of reg pdf.name pdf.content_hash R h1 h2,
      if_neg (by decide), if_neg h4]
    exact DocumentRegistry.versionOf_register_existing _ _ _ _ _ _ R h1
  · intro split now sid files reg v hv
    exact SyncService.versionOf_syncRun_ge split now sid files reg v hv
  · intro split now reg sid pdf hnd hname hch
    subst hname
    unfold SyncService.force_reingest_one
    have hfil : ([pdf] : List SyncService.PdfFile).filter
        (fun f => f.name = pdf.name) = [pdf] := by simp
    rw [hfil, List.foldl_cons, List.foldl_nil]
    have hnone := DocumentRegistry.regLookup_unregister_self reg pdf.name hnd
    rw [SyncService.process_document_reg_eq]
    have hst : DocumentRegistry.get_status (DocumentRegistry.unregister reg pdf.name).1
        pdf.name pdf.content_hash = DocumentRegistry.DocumentStatus.NEW := by
      unfold DocumentRegistry.get_status
      rw [hnone]
    rw [hst, if_neg (by decide), if_neg hch]
    exact DocumentRegistry.versionOf_register_fresh _ _ _ _ _ _ hnone

/-- Witness for C5 (amended): the `force_reingest` reset at a concrete
registry holding version 2. -/
theorem c5_version_monotone_amended_witness :
    SyncService.versionOf
      (SyncService.force_reingest_one (fun t => [t]) "T"
        [("doc.pdf", ⟨"doc.pdf", "h1", ["doc_001_0001"], 2, "T0", 1, 1⟩)]
        "doc.pdf" [⟨"doc.pdf", "h2", [⟨1, "t2", "doc.pdf"⟩]⟩]) "doc.pdf" =
      some 1 :=
  c5_version_monotone_amended.2.2.2 (fun t => [t]) "T"
    [("doc.pdf", ⟨"doc.pdf", "h1", ["doc_001_0001"], 2, "T0", 1, 1⟩)]
    "doc.pdf" ⟨"doc.pdf", "h2", [⟨1, "t2", "doc.pdf"⟩]⟩
    (by decide) rfl (by decide)
